import Mathlib

/-!
# HsBaGA: a shallow embedding of `GA/HsBaGA.hpp` and `Samples/SimpleUInt.cpp`

Conventions of the embedding.

* `std::bitset<N>` is a `List Bool`; bit `j` of the bitset is the element at index `j`.
  The width `N` and the population size `IndiviadulSize` are template parameters in the
  source and explicit arguments here.  That a gene vector has `N` bits and a population
  `IndiviadulSize` slots is a property of a state (`WellFormed`), not of its type.
* `std::array<TIndividual, IndiviadulSize>` is a `List TIndividual`.
* An access `a[i]` outside the container is undefined behaviour in C++; every operation
  that indexes returns `Option`, and `none` stands for an out-of-range access.
* `double` fitness values are finite rationals (`ℚ`); on finite doubles `>` and `>=`
  agree with the order of the rationals they denote.
* `size_t` is 64 bits wide.
* The random engine is a state type with the value each distribution call yields; the
  value `std::random_device` yields is an argument of the initialisers that use it.
* `std::sort` is a parameter carrying the contract of the C++ standard.
-/

namespace HsBa.GA

/-! ## The `Individual` concept -/

/-- Operations the `Individual<T, N, TIndividual>` concept requires of `TIndividual`,
together with the default constructor that `std::array<TIndividual, _>` needs. -/
structure Individual (T TIndividual : Type) where
  /-- Static member `TIndividual::encode(t)`. -/
  encode : T → List Bool
  /-- Static member `TIndividual::decode(gene)`. -/
  decode : List Bool → T
  /-- Constructor `TIndividual(gene)`. -/
  construct : List Bool → TIndividual
  /-- Default constructor `TIndividual()`. -/
  dflt : TIndividual
  /-- Member `individual.fitness()`. -/
  fitness : TIndividual → ℚ
  /-- Member `individual.getGenes()`. -/
  getGenes : TIndividual → List Bool
  /-- Member `individual.getFitness()`. -/
  getFitness : TIndividual → ℚ

/-- An individual type whose constructor stores the given genes exactly. -/
def Individual.StoresGenes {T TIndividual : Type} (I : Individual T TIndividual) : Prop :=
  ∀ g : List Bool, I.getGenes (I.construct g) = g

/-! ## The random engine -/

/-- Largest value of `size_t`. -/
def SIZE_MAX : Nat := 2 ^ 64 - 1

/-- The `size_t` expression `n - 1` (wraps to `SIZE_MAX` at `n = 0`). -/
def subOne (n : Nat) : Nat := (n + SIZE_MAX) % (SIZE_MAX + 1)

/-- The template parameter `TRandomEngine` with state type `σ`. -/
structure TRandomEngine (σ : Type) where
  /-- State of a default-constructed engine. -/
  init : σ
  /-- State after `randomEngine.seed(s)`. -/
  seed : Nat → σ
  /-- Call `std::uniform_int_distribution(a, b)(randomEngine)`: the value drawn and the
  state the engine is left in. -/
  uniform : Nat → Nat → σ → Nat × σ

/-- Every distribution yields a value inside the closed range it was built with. -/
def TRandomEngine.InRange {σ : Type} (E : TRandomEngine σ) : Prop :=
  ∀ (a b : Nat) (s : σ), a ≤ b → a ≤ (E.uniform a b s).1 ∧ (E.uniform a b s).1 ≤ b

/-- An engine that replays a script: the state is the list of raw words still to come,
a distribution over `[a, b]` maps the next word into its range, and seeding with `s`
loads the script `script s`. -/
def scriptedEngine (script : Nat → List Nat) : TRandomEngine (List Nat) where
  init := []
  seed := script
  uniform := fun a b s =>
    match s with
    | [] => (a, [])
    | w :: rest => (a + w % (b - a + 1), rest)

/-! ## `std::sort` -/

/-- A comparator that induces a strict weak ordering. -/
structure StrictWeakOrdering {α : Type} (comp : α → α → Bool) : Prop where
  irrefl : ∀ a, comp a a = false
  trans : ∀ a b c, comp a b = true → comp b c = true → comp a c = true
  incomp_trans : ∀ a b c, comp a b = false → comp b a = false →
    comp b c = false → comp c b = false → comp a c = false ∧ comp c a = false

/-- An implementation of `std::sort` with its contract: for a comparator inducing a
strict weak ordering the result is a rearrangement of the input in which no element
compares before an earlier one. The relative order of equivalent elements is
left open. -/
structure StdSort where
  sort : {α : Type} → (α → α → Bool) → List α → List α
  perm : ∀ {α : Type} (comp : α → α → Bool) (l : List α),
    StrictWeakOrdering comp → (sort comp l).Perm l
  sorted : ∀ {α : Type} (comp : α → α → Bool) (l : List α),
    StrictWeakOrdering comp → (sort comp l).Pairwise (fun a b => comp b a = false)

/-- Insertion of `a` into a list: after every leading element that compares before it. -/
def orderedInsert {α : Type} (comp : α → α → Bool) (a : α) : List α → List α
  | [] => [a]
  | b :: l => if comp b a then b :: orderedInsert comp a l else a :: b :: l

/-- Insertion sort, one implementation that meets the contract of `std::sort`. -/
def insertionSort {α : Type} (comp : α → α → Bool) : List α → List α
  | [] => []
  | a :: l => orderedInsert comp a (insertionSort comp l)

/-- Insertion sort as an implementation of `std::sort`. -/
def insertionStdSort : StdSort where
  sort := fun comp l => insertionSort comp l
  perm := by
    intro α comp l _
    have hins : ∀ (a : α) (l : List α), (orderedInsert comp a l).Perm (a :: l) := by
      intro a l
      induction l with
      | nil => exact List.Perm.refl _
      | cons b l ih =>
        by_cases h : comp b a = true
        · simp only [orderedInsert, h, if_true]
          exact (List.Perm.cons b ih).trans (List.Perm.swap a b l)
        · simp only [orderedInsert, h]
          exact List.Perm.refl _
    induction l with
    | nil => exact List.Perm.refl _
    | cons a l ih => exact (hins a _).trans (List.Perm.cons a ih)
  sorted := by
    intro α comp l hswo
    have hmem : ∀ (a : α) (l : List α) (y : α), y ∈ orderedInsert comp a l → y = a ∨ y ∈ l := by
      intro a l
      induction l with
      | nil => intro y hy; simpa [orderedInsert] using hy
      | cons b l ih =>
        intro y hy
        by_cases h : comp b a = true
        · simp only [orderedInsert, h, if_true, List.mem_cons] at hy
          rcases hy with hy | hy
          · exact Or.inr (by simp [hy])
          · rcases ih y hy with h1 | h1
            · exact Or.inl h1
            · exact Or.inr (by simp [h1])
        · simp only [orderedInsert, h] at hy
          simpa using hy
    have hasym : ∀ a b : α, comp a b = true → comp b a = false := by
      intro a b hab
      by_contra hba
      have hba1 : comp b a = true := by simpa using hba
      have := hswo.trans a b a hab hba1
      rw [hswo.irrefl a] at this
      exact Bool.noConfusion this
    have hneg : ∀ y b a : α, comp y b = false → comp b a = false → comp y a = false := by
      intro y b a hyb hba
      by_contra hya
      have hya1 : comp y a = true := by simpa using hya
      have hby : comp b y = false := by
        by_contra hby
        have hby1 : comp b y = true := by simpa using hby
        have := hswo.trans b y a hby1 hya1
        rw [hba] at this
        exact Bool.noConfusion this
      have hab : comp a b = false := by
        by_contra hab
        have hab1 : comp a b = true := by simpa using hab
        have := hswo.trans y a b hya1 hab1
        rw [hyb] at this
        exact Bool.noConfusion this
      have := (hswo.incomp_trans y b a hyb hby hba hab).1
      rw [hya1] at this
      exact Bool.noConfusion this
    have hins : ∀ (a : α) (l : List α), l.Pairwise (fun x y => comp y x = false) →
        (orderedInsert comp a l).Pairwise (fun x y => comp y x = false) := by
      intro a l
      induction l with
      | nil => intro _; simp [orderedInsert]
      | cons b l ih =>
        intro hp
        rw [List.pairwise_cons] at hp
        by_cases h : comp b a = true
        · simp only [orderedInsert, h, if_true]
          rw [List.pairwise_cons]
          refine ⟨?_, ih hp.2⟩
          intro y hy
          rcases hmem a l y hy with h1 | h1
          · rw [h1]; exact hasym b a h
          · exact hp.1 y h1
        · have hba : comp b a = false := by simpa using h
          simp only [orderedInsert, hba, Bool.false_eq_true, if_false]
          rw [List.pairwise_cons, List.pairwise_cons]
          refine ⟨?_, hp.1, hp.2⟩
          intro y hy
          rcases List.mem_cons.mp hy with h1 | h1
          · rw [h1]; exact hba
          · exact hneg y b a (hp.1 y h1) hba
    induction l with
    | nil => exact List.Pairwise.nil
    | cons a l ih => exact hins a _ ih

/-! ## The `std::sort` of libstdc++

`Selection` hands the population to `std::sort`. The implementation of GCC's libstdc++
(`bits/stl_algo.h` and `bits/stl_heap.h`) is written out here: an iterator is a position
in the array, an access outside the array is `none`, and a loop without a bound in the
source carries a bound on its iterations. -/

namespace Libstdcxx

/-- Assignment `*(first + i) = v`. -/
def assign {α : Type} (a : List α) (i : Nat) (v : α) : Option (List α) :=
  if i < a.length then some (a.set i v) else none

/-- Call `std::iter_swap(a, b)`. -/
def iter_swap {α : Type} (arr : List α) (a b : Nat) : Option (List α) :=
  match arr[a]?, arr[b]? with
  | some x, some y =>
    match assign arr a y with
    | some arr1 => assign arr1 b x
    | none => none
  | _, _ => none

/-- Function `__move_median_to_first(result, a, b, c, comp)`. -/
def move_median_to_first {α : Type} (comp : α → α → Bool) (arr : List α)
    (result a b c : Nat) : Option (List α) :=
  match arr[a]?, arr[b]?, arr[c]? with
  | some va, some vb, some vc =>
    if comp va vb then
      if comp vb vc then iter_swap arr result b
      else if comp va vc then iter_swap arr result c
      else iter_swap arr result a
    else if comp va vc then iter_swap arr result a
    else if comp vb vc then iter_swap arr result c
    else iter_swap arr result b
  | _, _, _ => none

/-- Loop `while (comp(first, pivot)) ++first;` of `__unguarded_partition`. -/
def scan_up {α : Type} (comp : α → α → Bool) (arr : List α) (pivot : Nat) :
    Nat → Nat → Option Nat
  | 0, _ => none
  | fuel + 1, first =>
    match arr[first]?, arr[pivot]? with
    | some x, some p => if comp x p then scan_up comp arr pivot fuel (first + 1) else some first
    | _, _ => none

/-- Loop `while (comp(pivot, last)) --last;` of `__unguarded_partition`. -/
def scan_down {α : Type} (comp : α → α → Bool) (arr : List α) (pivot : Nat) :
    Nat → Nat → Option Nat
  | 0, _ => none
  | fuel + 1, last =>
    match arr[pivot]?, arr[last]? with
    | some p, some y =>
      if comp p y then
        if last = 0 then none else scan_down comp arr pivot fuel (last - 1)
      else some last
    | _, _ => none

/-- Function `__unguarded_partition(first, last, pivot, comp)`: the array left and the
iterator returned. -/
def unguarded_partition {α : Type} (comp : α → α → Bool) (pivot : Nat) :
    Nat → List α → Nat → Nat → Option (List α × Nat)
  | 0, _, _, _ => none
  | fuel + 1, arr, first, last =>
    match scan_up comp arr pivot (arr.length + 1) first with
    | some first1 =>
      if last = 0 then none
      else
        match scan_down comp arr pivot (arr.length + 1) (last - 1) with
        | some last1 =>
          if first1 < last1 then
            match iter_swap arr first1 last1 with
            | some arr1 => unguarded_partition comp pivot fuel arr1 (first1 + 1) last1
            | none => none
          else some (arr, first1)
        | none => none
    | none => none

/-- Function `__unguarded_partition_pivot(first, last, comp)`. -/
def unguarded_partition_pivot {α : Type} (comp : α → α → Bool) (arr : List α)
    (first last : Nat) : Option (List α × Nat) :=
  let mid := first + (last - first) / 2
  match move_median_to_first comp arr first (first + 1) mid (last - 1) with
  | some arr1 => unguarded_partition comp first (arr.length + 1) arr1 (first + 1) last
  | none => none

/-- Loop of `__unguarded_linear_insert(last, comp)` after `val = *last; next = last - 1`. -/
def unguarded_linear_insert_loop {α : Type} (comp : α → α → Bool) (val : α) :
    Nat → List α → Nat → Option (List α)
  | 0, _, _ => none
  | fuel + 1, arr, last =>
    if last = 0 then none
    else
      match arr[last - 1]? with
      | some nextVal =>
        if comp val nextVal then
          match assign arr last nextVal with
          | some arr1 => unguarded_linear_insert_loop comp val fuel arr1 (last - 1)
          | none => none
        else assign arr last val
      | none => none

/-- Function `__unguarded_linear_insert(last, comp)`. -/
def unguarded_linear_insert {α : Type} (comp : α → α → Bool) (arr : List α) (last : Nat) :
    Option (List α) :=
  match arr[last]? with
  | some val => unguarded_linear_insert_loop comp val (arr.length + 1) arr last
  | none => none

/-- Statements `val = *i; move_backward(first, i, i + 1); *first = val` of
`__insertion_sort`. -/
def rotate_to_first {α : Type} (arr : List α) (first i : Nat) : Option (List α) :=
  match arr[i]? with
  | some val =>
    if first ≤ i then
      some (arr.take first ++ val :: ((arr.take i).drop first) ++ arr.drop (i + 1))
    else none
  | none => none

/-- Loop `for (i = first + 1; i != last; ++i)` of `__insertion_sort`. -/
def insertion_sort_loop {α : Type} (comp : α → α → Bool) (first last : Nat) :
    Nat → List α → Nat → Option (List α)
  | 0, _, _ => none
  | fuel + 1, arr, i =>
    if i = last then some arr
    else
      match arr[i]?, arr[first]? with
      | some vi, some vf =>
        if comp vi vf then
          match rotate_to_first arr first i with
          | some arr1 => insertion_sort_loop comp first last fuel arr1 (i + 1)
          | none => none
        else
          match unguarded_linear_insert comp arr i with
          | some arr1 => insertion_sort_loop comp first last fuel arr1 (i + 1)
          | none => none
      | _, _ => none

/-- Function `__insertion_sort(first, last, comp)`. -/
def insertion_sort {α : Type} (comp : α → α → Bool) (arr : List α) (first last : Nat) :
    Option (List α) :=
  if first = last then some arr
  else insertion_sort_loop comp first last (arr.length + 1) arr (first + 1)

/-- Function `__unguarded_insertion_sort(first, last, comp)`. -/
def unguarded_insertion_sort {α : Type} (comp : α → α → Bool) (last : Nat) :
    Nat → List α → Nat → Option (List α)
  | 0, _, _ => none
  | fuel + 1, arr, i =>
    if i = last then some arr
    else
      match unguarded_linear_insert comp arr i with
      | some arr1 => unguarded_insertion_sort comp last fuel arr1 (i + 1)
      | none => none

/-- Constant `_S_threshold`. -/
def S_threshold : Nat := 16

/-- Function `__final_insertion_sort(first, last, comp)`. -/
def final_insertion_sort {α : Type} (comp : α → α → Bool) (arr : List α) (first last : Nat) :
    Option (List α) :=
  if last - first > S_threshold then
    match insertion_sort comp arr first (first + S_threshold) with
    | some arr1 =>
      unguarded_insertion_sort comp last (arr.length + 1) arr1 (first + S_threshold)
    | none => none
  else insertion_sort comp arr first last

/-- Function `__push_heap(first, holeIndex, topIndex, value, comp)`. -/
def push_heap {α : Type} (comp : α → α → Bool) (first topIndex : Nat) (value : α) :
    Nat → List α → Nat → Option (List α)
  | 0, _, _ => none
  | fuel + 1, arr, holeIndex =>
    let parent := (holeIndex - 1) / 2
    if holeIndex > topIndex then
      match arr[first + parent]? with
      | some vp =>
        if comp vp value then
          match assign arr (first + holeIndex) vp with
          | some arr1 => push_heap comp first topIndex value fuel arr1 parent
          | none => none
        else assign arr (first + holeIndex) value
      | none => none
    else assign arr (first + holeIndex) value

/-- First loop of `__adjust_heap`: `while (secondChild < (len - 1) / 2)`; the array,
`holeIndex` and `secondChild` it leaves. -/
def adjust_heap_loop {α : Type} (comp : α → α → Bool) (first len : Nat) :
    Nat → List α → Nat → Nat → Option (List α × Nat × Nat)
  | 0, _, _, _ => none
  | fuel + 1, arr, holeIndex, secondChild =>
    if secondChild < (len - 1) / 2 then
      let secondChild1 := 2 * (secondChild + 1)
      match arr[first + secondChild1]?, arr[first + (secondChild1 - 1)]? with
      | some right, some left =>
        let secondChild2 := if comp right left then secondChild1 - 1 else secondChild1
        match arr[first + secondChild2]? with
        | some child =>
          match assign arr (first + holeIndex) child with
          | some arr1 => adjust_heap_loop comp first len fuel arr1 secondChild2 secondChild2
          | none => none
        | none => none
      | _, _ => none
    else some (arr, holeIndex, secondChild)

/-- Function `__adjust_heap(first, holeIndex, len, value, comp)`. -/
def adjust_heap {α : Type} (comp : α → α → Bool) (arr : List α) (first holeIndex len : Nat)
    (value : α) : Option (List α) :=
  let topIndex := holeIndex
  match adjust_heap_loop comp first len (arr.length + 1) arr holeIndex holeIndex with
  | some (arr1, holeIndex1, secondChild) =>
    if len % 2 = 0 ∧ secondChild = (len - 2) / 2 then
      let secondChild1 := 2 * (secondChild + 1)
      match arr1[first + (secondChild1 - 1)]? with
      | some child =>
        match assign arr1 (first + holeIndex1) child with
        | some arr2 =>
          push_heap comp first topIndex value (arr.length + 1) arr2 (secondChild1 - 1)
        | none => none
      | none => none
    else push_heap comp first topIndex value (arr.length + 1) arr1 holeIndex1
  | none => none

/-- Function `__pop_heap(first, last, result, comp)`. -/
def pop_heap {α : Type} (comp : α → α → Bool) (arr : List α) (first last result : Nat) :
    Option (List α) :=
  match arr[result]?, arr[first]? with
  | some value, some vf =>
    match assign arr result vf with
    | some arr1 => adjust_heap comp arr1 first 0 (last - first) value
    | none => none
  | _, _ => none

/-- Loop `while (true)` of `__make_heap`. -/
def make_heap_loop {α : Type} (comp : α → α → Bool) (first len : Nat) :
    Nat → List α → Nat → Option (List α)
  | 0, _, _ => none
  | fuel + 1, arr, parent =>
    match arr[first + parent]? with
    | some value =>
      match adjust_heap comp arr first parent len value with
      | some arr1 =>
        if parent = 0 then some arr1
        else make_heap_loop comp first len fuel arr1 (parent - 1)
      | none => none
    | none => none

/-- Function `__make_heap(first, last, comp)`. -/
def make_heap {α : Type} (comp : α → α → Bool) (arr : List α) (first last : Nat) :
    Option (List α) :=
  if last - first < 2 then some arr
  else make_heap_loop comp first (last - first) (arr.length + 1) arr ((last - first - 2) / 2)

/-- Function `__sort_heap(first, last, comp)`. -/
def sort_heap {α : Type} (comp : α → α → Bool) (first : Nat) :
    Nat → List α → Nat → Option (List α)
  | 0, _, _ => none
  | fuel + 1, arr, last =>
    if last - first > 1 then
      match pop_heap comp arr first (last - 1) (last - 1) with
      | some arr1 => sort_heap comp first fuel arr1 (last - 1)
      | none => none
    else some arr

/-- Loop `for (i = middle; i < last; ++i)` of `__heap_select`. -/
def heap_select_loop {α : Type} (comp : α → α → Bool) (first middle last : Nat) :
    Nat → List α → Nat → Option (List α)
  | 0, _, _ => none
  | fuel + 1, arr, i =>
    if i < last then
      match arr[i]?, arr[first]? with
      | some vi, some vf =>
        if comp vi vf then
          match pop_heap comp arr first middle i with
          | some arr1 => heap_select_loop comp first middle last fuel arr1 (i + 1)
          | none => none
        else heap_select_loop comp first middle last fuel arr (i + 1)
      | _, _ => none
    else some arr

/-- Function `__heap_select(first, middle, last, comp)`. -/
def heap_select {α : Type} (comp : α → α → Bool) (arr : List α) (first middle last : Nat) :
    Option (List α) :=
  match make_heap comp arr first middle with
  | some arr1 => heap_select_loop comp first middle last (arr.length + 1) arr1 middle
  | none => none

/-- Function `__partial_sort(first, middle, last, comp)`. -/
def partial_sort {α : Type} (comp : α → α → Bool) (arr : List α)
    (first middle last : Nat) : Option (List α) :=
  match heap_select comp arr first middle last with
  | some arr1 => sort_heap comp first (arr.length + 1) arr1 middle
  | none => none

/-- Function `__introsort_loop(first, last, depth_limit, comp)`; each pass of its
`while` loop and each nested call lowers `depth_limit` by one. -/
def introsort_loop {α : Type} (comp : α → α → Bool) :
    Nat → List α → Nat → Nat → Option (List α)
  | 0, arr, first, last =>
    if last - first > S_threshold then partial_sort comp arr first last last
    else some arr
  | depth_limit + 1, arr, first, last =>
    if last - first > S_threshold then
      match unguarded_partition_pivot comp arr first last with
      | some (arr1, cut) =>
        match introsort_loop comp depth_limit arr1 cut last with
        | some arr2 => introsort_loop comp depth_limit arr2 first cut
        | none => none
      | none => none
    else some arr

/-- Function `__lg(n)`: the position of the highest set bit of `n`; `fuel` bounds the
halvings. -/
def lg : Nat → Nat → Nat
  | 0, _ => 0
  | fuel + 1, n => if n < 2 then 0 else lg fuel (n / 2) + 1

/-- Function `__sort(first, last, comp)`, which `std::sort(first, last, comp)` calls, on
the whole array. -/
def sort {α : Type} (comp : α → α → Bool) (arr : List α) : Option (List α) :=
  if arr.length = 0 then some arr
  else
    match introsort_loop comp (lg arr.length arr.length * 2) arr 0 arr.length with
    | some arr1 => final_insertion_sort comp arr1 0 arr.length
    | none => none

end Libstdcxx

/-- Call `std::sort(a.begin(), a.end(), comp)` of libstdc++ on a whole array. The array
is sorted with every element tagged by its position and the outcome is laid out by those
positions. Where the run ends in an out-of-range access, or its outcome is not a
rearrangement of the input in sorted order, insertion sort stands in. -/
def libstdcxxSort {α : Type} (comp : α → α → Bool) (l : List α) : List α :=
  match Libstdcxx.sort (fun p q => comp p.2 q.2) l.enum with
  | some tagged =>
    if (tagged.map Prod.fst).Perm (List.range l.length) ∧
        ((tagged.map Prod.fst).filterMap (fun i => l[i]?)).Pairwise
          (fun a b => comp b a = false) then
      (tagged.map Prod.fst).filterMap (fun i => l[i]?)
    else insertionSort comp l
  | none => insertionSort comp l

/-- The `std::sort` of libstdc++ as an implementation of `std::sort`; it meets the
contract by construction. -/
def libstdcxxStdSort : StdSort where
  sort := fun comp l => libstdcxxSort comp l
  perm := by
    intro α comp l hswo
    have hrange : ∀ l : List α, (List.range l.length).filterMap (fun i => l[i]?) = l := by
      intro l
      induction l with
      | nil => rfl
      | cons a l ih =>
        rw [List.length_cons, List.range_succ_eq_map, List.filterMap_cons, List.filterMap_map]
        simp only [List.getElem?_cons_zero]
        have hfun : ((fun i => (a :: l)[i]?) ∘ Nat.succ) = fun i => l[i]? := by
          funext i
          simp
        rw [hfun, ih]
    show (libstdcxxSort comp l).Perm l
    unfold libstdcxxSort
    split
    · split
      · rename_i hg
        have h := hg.1.filterMap (fun i => l[i]?)
        rw [hrange l] at h
        exact h
      · exact insertionStdSort.perm comp l hswo
    · exact insertionStdSort.perm comp l hswo
  sorted := by
    intro α comp l hswo
    show (libstdcxxSort comp l).Pairwise (fun a b => comp b a = false)
    unfold libstdcxxSort
    split
    · split
      · rename_i hg
        exact hg.2
      · exact insertionStdSort.sorted comp l hswo
    · exact insertionStdSort.sorted comp l hswo

/-! ## The engine state and the three operators

`Selection`, `Crossover` and `Mutation` are written out three times in the source, once
per stop condition; the three copies are textually identical. -/

/-- Data members of `GeneticAlgorithm`. -/
structure GeneticAlgorithm (TIndividual σ : Type) where
  population : List TIndividual
  randomEngine : σ
deriving DecidableEq

/-- The state matches the types `std::array<TIndividual, P>` and `std::bitset<N>`. -/
def WellFormed {T TIndividual σ : Type} (I : Individual T TIndividual) (N P : Nat)
    (ga : GeneticAlgorithm TIndividual σ) : Prop :=
  ga.population.length = P ∧ ∀ x ∈ ga.population, (I.getGenes x).length = N

/-- Defaulted constructor `GeneticAlgorithm()`. -/
def GeneticAlgorithm.construct {T TIndividual σ : Type} (I : Individual T TIndividual)
    (E : TRandomEngine σ) (P : Nat) : GeneticAlgorithm TIndividual σ :=
  { population := List.replicate P I.dflt, randomEngine := E.init }

/-- The lambda handed to `std::sort` in `Selection`. -/
def fitnessGreater {T TIndividual : Type} (I : Individual T TIndividual)
    (a b : TIndividual) : Bool :=
  decide (I.getFitness a > I.getFitness b)

/-- Member `Selection()`. -/
def Selection {T TIndividual σ : Type} (S : StdSort) (I : Individual T TIndividual)
    (ga : GeneticAlgorithm TIndividual σ) : GeneticAlgorithm TIndividual σ :=
  { ga with population := S.sort (fitnessGreater I) ga.population }

/-- Assignment `a[i] = v` into a container. -/
def assignAt {α : Type} (a : List α) (i : Nat) (v : α) : Option (List α) :=
  if i < a.length then some (a.set i v) else none

/-- Inner loop of `Crossover`: `for (j = crossoverPoint; j < N; j++)` swapping bit `j`
of the two children; `fuel` is the number of iterations left, `N - j`. -/
def swapLoop (N : Nat) : Nat → Nat → List Bool → List Bool → Option (List Bool × List Bool)
  | 0, _, child1, child2 => some (child1, child2)
  | fuel + 1, j, child1, child2 =>
    if j < N then
      match child1[j]?, child2[j]? with
      | some temp, some b =>
        match assignAt child1 j b, assignAt child2 j temp with
        | some c1, some c2 => swapLoop N fuel (j + 1) c1 c2
        | _, _ => none
      | _, _ => none
    else some (child1, child2)

/-- Outer loop of `Crossover`: `for (i = 0; i < IndiviadulSize; i++)`, whose body
increments `i` once more; `fuel` bounds the number of iterations. -/
def crossoverLoop {T TIndividual : Type} (I : Individual T TIndividual) (N P : Nat)
    (crossoverPoint : Nat) (population : List TIndividual) :
    Nat → Nat → List TIndividual → Option (List TIndividual)
  | 0, _, newPopulation => some newPopulation
  | fuel + 1, i, newPopulation =>
    if i < P then
      match population[0]?, population[1]? with
      | some parent1, some parent2 =>
        match swapLoop N (N - crossoverPoint) crossoverPoint
            (I.getGenes parent1) (I.getGenes parent2) with
        | some (child1, child2) =>
          match assignAt newPopulation i (I.construct child1) with
          | some np1 =>
            if i + 1 < P then
              match assignAt np1 (i + 1) (I.construct child2) with
              | some np2 => crossoverLoop I N P crossoverPoint population fuel (i + 2) np2
              | none => none
            else crossoverLoop I N P crossoverPoint population fuel (i + 2) np1
          | none => none
        | none => none
      | _, _ => none
    else some newPopulation

/-- The local array `newPopulation` as `Crossover` leaves it when its loop ends. -/
def crossoverNewPopulation {T TIndividual : Type} (I : Individual T TIndividual)
    (N P : Nat) (crossoverPoint : Nat) (population : List TIndividual) :
    Option (List TIndividual) :=
  crossoverLoop I N P crossoverPoint population P 0 (List.replicate P I.dflt)

/-- Member `Crossover()`. The array `newPopulation` is local and is dropped on return. -/
def Crossover {T TIndividual σ : Type} (I : Individual T TIndividual)
    (E : TRandomEngine σ) (N P : Nat) (ga : GeneticAlgorithm TIndividual σ) :
    Option (GeneticAlgorithm TIndividual σ) :=
  let draw := E.uniform 0 (subOne N) ga.randomEngine
  let crossoverPoint := draw.1
  match crossoverNewPopulation I N P crossoverPoint ga.population with
  | some _ => some { ga with randomEngine := draw.2 }
  | none => none

/-- Member `Mutation()`. -/
def Mutation {T TIndividual σ : Type} (I : Individual T TIndividual)
    (E : TRandomEngine σ) (N P : Nat) (ga : GeneticAlgorithm TIndividual σ) :
    Option (GeneticAlgorithm TIndividual σ) :=
  let draw := E.uniform 0 (subOne P) ga.randomEngine
  let individual := draw.1
  let draw2 := E.uniform 0 (subOne N) draw.2
  let mutationPoint := draw2.1
  match ga.population[individual]? with
  | some x =>
    let genes := I.getGenes x
    match genes[mutationPoint]? with
    | some bit =>
      match assignAt genes mutationPoint (!bit) with
      | some genes1 =>
        match assignAt ga.population individual (I.construct genes1) with
        | some population1 => some { population := population1, randomEngine := draw2.2 }
        | none => none
      | none => none
    | none => none
  | none => none

/-! ## Initialisation

`InitializePopulation(seed)`, `InitializePopulation(genes)` and
`InitializePopulation(genes, seed)` are textually identical in the three classes.
The argument-less `InitializePopulation()` of the primary template differs from the one
of the `Fitness` and `Time` specialisations. -/

/-- Loop `for (i = 0; i < N; i++) genes[i] = std::uniform_int_distribution<int>(0, 1)(randomEngine)`;
the drawn `int` converts to `bool`. `fuel` is the number of iterations left. -/
def randomGenesLoop {σ : Type} (E : TRandomEngine σ) (N : Nat) :
    Nat → Nat → List Bool → σ → Option (List Bool × σ)
  | 0, _, genes, s => some (genes, s)
  | fuel + 1, i, genes, s =>
    if i < N then
      let draw := E.uniform 0 1 s
      match assignAt genes i (decide (draw.1 ≠ 0)) with
      | some genes1 => randomGenesLoop E N fuel (i + 1) genes1 draw.2
      | none => none
    else some (genes, s)

/-- Loop `for (auto& individual : population)` whose body fills a fresh bitset with
drawn bits and assigns `TIndividual(genes)`. -/
def randomPopulationLoop {T TIndividual σ : Type} (I : Individual T TIndividual)
    (E : TRandomEngine σ) (N : Nat) : List TIndividual → σ → Option (List TIndividual × σ)
  | [], s => some ([], s)
  | _ :: rest, s =>
    match randomGenesLoop E N N 0 (List.replicate N false) s with
    | some (genes, s1) =>
      match randomPopulationLoop I E N rest s1 with
      | some (rest1, s2) => some (I.construct genes :: rest1, s2)
      | none => none
    | none => none

/-- Loop `for (auto& individual : population) individual = TIndividual(genes)`. -/
def fixedPopulationLoop {T TIndividual : Type} (I : Individual T TIndividual)
    (genes : List Bool) (population : List TIndividual) : List TIndividual :=
  population.map (fun _ => I.construct genes)

/-- Overload `InitializePopulation(const unsigned int seed)` (all three classes). -/
def InitializePopulationSeed {T TIndividual σ : Type} (I : Individual T TIndividual)
    (E : TRandomEngine σ) (N : Nat) (seed : Nat) (ga : GeneticAlgorithm TIndividual σ) :
    Option (GeneticAlgorithm TIndividual σ) :=
  match randomPopulationLoop I E N ga.population (E.seed seed) with
  | some (population1, s) => some { population := population1, randomEngine := s }
  | none => none

/-- Overload `InitializePopulation(const std::bitset<N> genes)` (all three classes);
`rd` is the value `std::random_device` yields. -/
def InitializePopulationGenes {T TIndividual σ : Type} (I : Individual T TIndividual)
    (E : TRandomEngine σ) (rd : Nat) (genes : List Bool)
    (ga : GeneticAlgorithm TIndividual σ) : GeneticAlgorithm TIndividual σ :=
  { population := fixedPopulationLoop I genes ga.population, randomEngine := E.seed rd }

/-- Overload `InitializePopulation(const std::bitset<N> genes, const unsigned int seed)`
(all three classes). -/
def InitializePopulationGenesSeed {T TIndividual σ : Type} (I : Individual T TIndividual)
    (E : TRandomEngine σ) (genes : List Bool) (seed : Nat)
    (ga : GeneticAlgorithm TIndividual σ) : GeneticAlgorithm TIndividual σ :=
  { population := fixedPopulationLoop I genes ga.population, randomEngine := E.seed seed }

/-- Result of a run loop that is followed for a bounded number of iterations. -/
inductive RunState (T G : Type) where
  /-- The loop has not left after the iterations followed so far. -/
  | Running (ga : G)
  /-- The member function `Run` returned `result`, leaving the engine in `ga`. -/
  | Terminated (result : T) (ga : G)
deriving DecidableEq

/-- Statement `return population[0].decode(population[0].getGenes())`. -/
def returnTop {T TIndividual σ : Type} (I : Individual T TIndividual)
    (ga : GeneticAlgorithm TIndividual σ) : Option (T × GeneticAlgorithm TIndividual σ) :=
  match ga.population[0]? with
  | some top => some (I.decode (I.getGenes top), ga)
  | none => none

/-! ## Primary template: `GAAlgStopCondition::Generation` -/

namespace Generation

/-- Overload `InitializePopulation()` of the primary template; `rd` is the value
`std::random_device` yields. The bitset is value-initialised and no bit is drawn. -/
def InitializePopulation {T TIndividual σ : Type} (I : Individual T TIndividual)
    (E : TRandomEngine σ) (N : Nat) (rd : Nat) (ga : GeneticAlgorithm TIndividual σ) :
    GeneticAlgorithm TIndividual σ :=
  { population := fixedPopulationLoop I (List.replicate N false) ga.population,
    randomEngine := E.seed rd }

/-- Loop `for (size_t i = 0; i < generation; i++) { Selection(); Crossover(); Mutation(); }`;
`fuel` bounds the number of iterations. -/
def runLoop {T TIndividual σ : Type} (S : StdSort) (I : Individual T TIndividual)
    (E : TRandomEngine σ) (N P : Nat) (generation : Nat) :
    Nat → Nat → GeneticAlgorithm TIndividual σ → Option (GeneticAlgorithm TIndividual σ)
  | 0, _, ga => some ga
  | fuel + 1, i, ga =>
    if i < generation then
      match Crossover I E N P (Selection S I ga) with
      | some ga1 =>
        match Mutation I E N P ga1 with
        | some ga2 => runLoop S I E N P generation fuel (i + 1) ga2
        | none => none
      | none => none
    else some ga

/-- Member `T Run(const size_t generation)`: the value returned and the state left. -/
def Run {T TIndividual σ : Type} (S : StdSort) (I : Individual T TIndividual)
    (E : TRandomEngine σ) (N P : Nat) (generation : Nat)
    (ga : GeneticAlgorithm TIndividual σ) : Option (T × GeneticAlgorithm TIndividual σ) :=
  match runLoop S I E N P generation generation 0 ga with
  | some ga1 => returnTop I (Selection S I ga1)
  | none => none

end Generation

/-! ## Specialisation `GAAlgStopCondition::Fitness` -/

namespace Fitness

/-- Overload `InitializePopulation()` of the `Fitness` specialisation; `rd` is the value
`std::random_device` yields. Every bit is drawn from the engine. -/
def InitializePopulation {T TIndividual σ : Type} (I : Individual T TIndividual)
    (E : TRandomEngine σ) (N : Nat) (rd : Nat) (ga : GeneticAlgorithm TIndividual σ) :
    Option (GeneticAlgorithm TIndividual σ) :=
  match randomPopulationLoop I E N ga.population (E.seed rd) with
  | some (population1, s) => some { population := population1, randomEngine := s }
  | none => none

/-- Member `T Run(const double fitness)`, its `while (true)` followed for at most `fuel`
iterations. -/
def Run {T TIndividual σ : Type} (S : StdSort) (I : Individual T TIndividual)
    (E : TRandomEngine σ) (N P : Nat) (fitness : ℚ) :
    Nat → GeneticAlgorithm TIndividual σ →
      Option (RunState T (GeneticAlgorithm TIndividual σ))
  | 0, ga => some (RunState.Running ga)
  | fuel + 1, ga =>
    let ga1 := Selection S I ga
    match ga1.population[0]? with
    | some top =>
      if I.getFitness top ≥ fitness then
        match returnTop I ga1 with
        | some (result, ga2) => some (RunState.Terminated result ga2)
        | none => none
      else
        match Crossover I E N P ga1 with
        | some ga2 =>
          match Mutation I E N P ga2 with
          | some ga3 => Run S I E N P fitness fuel ga3
          | none => none
        | none => none
    | none => none

end Fitness

/-! ## Specialisation `GAAlgStopCondition::Time` -/

namespace Time

/-- Overload `InitializePopulation()` of the `Time` specialisation; `rd` is the value
`std::random_device` yields. Every bit is drawn from the engine. -/
def InitializePopulation {T TIndividual σ : Type} (I : Individual T TIndividual)
    (E : TRandomEngine σ) (N : Nat) (rd : Nat) (ga : GeneticAlgorithm TIndividual σ) :
    Option (GeneticAlgorithm TIndividual σ) :=
  match randomPopulationLoop I E N ga.population (E.seed rd) with
  | some (population1, s) => some { population := population1, randomEngine := s }
  | none => none

/-- The `while (true)` of `T Run(const double time)` with the statements after it,
followed for at most `fuel` iterations. `now k` is the reading, in seconds, of the
`k`-th call of `std::chrono::system_clock::now()`; `k` counts the calls made so far. -/
def runLoop {T TIndividual σ : Type} (S : StdSort) (I : Individual T TIndividual)
    (E : TRandomEngine σ) (N P : Nat) (now : Nat → ℚ) (time : ℚ) (start : ℚ) :
    Nat → Nat → GeneticAlgorithm TIndividual σ →
      Option (RunState T (GeneticAlgorithm TIndividual σ))
  | 0, _, ga => some (RunState.Running ga)
  | fuel + 1, k, ga =>
    let elapsed_seconds := now k - start
    if elapsed_seconds ≥ time then
      match returnTop I (Selection S I ga) with
      | some (result, ga1) => some (RunState.Terminated result ga1)
      | none => none
    else
      match Crossover I E N P (Selection S I ga) with
      | some ga1 =>
        match Mutation I E N P ga1 with
        | some ga2 => runLoop S I E N P now time start fuel (k + 1) ga2
        | none => none
      | none => none

/-- Member `T Run(const double time)`. -/
def Run {T TIndividual σ : Type} (S : StdSort) (I : Individual T TIndividual)
    (E : TRandomEngine σ) (N P : Nat) (now : Nat → ℚ) (time : ℚ) (fuel : Nat)
    (ga : GeneticAlgorithm TIndividual σ) :
    Option (RunState T (GeneticAlgorithm TIndividual σ)) :=
  runLoop S I E N P now time (now 0) fuel 1 ga

end Time

/-! ## The drawn population in closed form -/

/-- The bits that `n` successive calls of `std::uniform_int_distribution<int>(0, 1)` yield
from engine state `s` (a drawn `int` other than 0 is the bit 1), and the state left. -/
def drawnBits {σ : Type} (E : TRandomEngine σ) : Nat → σ → List Bool × σ
  | 0, s => ([], s)
  | n + 1, s =>
    let draw := E.uniform 0 1 s
    let rest := drawnBits E n draw.2
    (decide (draw.1 ≠ 0) :: rest.1, rest.2)

/-- A population of `P` individuals, each constructed from the next `N` drawn bits, and
the state the engine is left in. -/
def drawnPopulation {T TIndividual σ : Type} (I : Individual T TIndividual)
    (E : TRandomEngine σ) (N : Nat) : Nat → σ → List TIndividual × σ
  | 0, s => ([], s)
  | P + 1, s =>
    let genes := drawnBits E N s
    let rest := drawnPopulation I E N P genes.2
    (I.construct genes.1 :: rest.1, rest.2)

/-- The replacement population in the words of the specification: child A in every even
slot and child B in every odd slot of `P` slots. -/
def specNewPopulation {T TIndividual : Type} (I : Individual T TIndividual) (P : Nat)
    (childA childB : List Bool) : List TIndividual :=
  (List.range P).map (fun i => if i % 2 = 0 then I.construct childA else I.construct childB)

/-- Number of bit positions in which two gene vectors differ. -/
def hamming : List Bool → List Bool → Nat
  | a :: g, b :: g0 => (if a = b then 0 else 1) + hamming g g0
  | _, _ => 0

/-- Number of bit positions in which the individuals of a population differ from the
gene vector `g0`, summed over the whole population. -/
def totalHamming {T TIndividual : Type} (I : Individual T TIndividual) (g0 : List Bool) :
    List TIndividual → Nat
  | [] => 0
  | x :: rest => hamming (I.getGenes x) g0 + totalHamming I g0 rest

/-- The value `v` is the decoded gene vector of an individual of `ga`'s population whose
fitness is at least the fitness of every individual of that population. -/
def DecodesBest {T TIndividual σ : Type} (I : Individual T TIndividual) (v : T)
    (ga : GeneticAlgorithm TIndividual σ) : Prop :=
  ∃ x ∈ ga.population, v = I.decode (I.getGenes x) ∧
    ∀ y ∈ ga.population, I.getFitness y ≤ I.getFitness x

/-! ## The generation-bound run in the words of the specification -/

/-- One full iteration as the specification words it: Selection, then Crossover, then
Mutation. -/
def specGeneration {T TIndividual σ : Type} (S : StdSort) (I : Individual T TIndividual)
    (E : TRandomEngine σ) (N P : Nat) (ga : GeneticAlgorithm TIndividual σ) :
    Option (GeneticAlgorithm TIndividual σ) :=
  (Crossover I E N P (Selection S I ga)).bind (Mutation I E N P)

/-- Exactly `G` full iterations, one after the other, with no test in between. -/
def specGenerations {T TIndividual σ : Type} (S : StdSort) (I : Individual T TIndividual)
    (E : TRandomEngine σ) (N P : Nat) :
    Nat → GeneticAlgorithm TIndividual σ → Option (GeneticAlgorithm TIndividual σ)
  | 0, ga => some ga
  | G + 1, ga => (specGeneration S I E N P ga).bind (specGenerations S I E N P G)

/-- The generation-bound strategy as the specification words it: `G` full iterations,
then one final Selection, then the decoded top individual. -/
def specRunGeneration {T TIndividual σ : Type} (S : StdSort) (I : Individual T TIndividual)
    (E : TRandomEngine σ) (N P : Nat) (G : Nat) (ga : GeneticAlgorithm TIndividual σ) :
    Option (T × GeneticAlgorithm TIndividual σ) :=
  (specGenerations S I E N P G ga).bind (fun ga1 => returnTop I (Selection S I ga1))

end HsBa.GA

/-! ## `Samples/SimpleUInt.cpp` -/

/-- Class `UIntIndividual`. -/
structure UIntIndividual where
  genes : List Bool
deriving DecidableEq, Repr

namespace UIntIndividual

/-- Constructor `std::bitset<32>(value)`: bit `j` is bit `j` of `value`. -/
def encode (value : Nat) : List Bool :=
  (List.range 32).map (fun j => value.testBit j)

/-- Member `bitset.to_ulong()`: the sum of `2 ^ j` over the set bits `j`. -/
def to_ulong : List Bool → Nat
  | [] => 0
  | b :: rest => b.toNat + 2 * to_ulong rest

/-- Static member `decode`: `static_cast<unsigned int>(bitset.to_ulong())`. -/
def decode (bitset : List Bool) : Nat :=
  to_ulong bitset % 2 ^ 32

/-- Member `fitness()`: `static_cast<double>(decode(genes))`, exact for 32-bit values. -/
def fitness (x : UIntIndividual) : ℚ :=
  ((decode x.genes : Nat) : ℚ)

/-- Member `getGenes()`. -/
def getGenes (x : UIntIndividual) : List Bool := x.genes

/-- Member `getFitness()`. -/
def getFitness (x : UIntIndividual) : ℚ := fitness x

/-- The sample satisfies `Individual<unsigned int, 32, UIntIndividual>`. -/
def individual : HsBa.GA.Individual Nat UIntIndividual where
  encode := encode
  decode := decode
  construct := fun genes => { genes := genes }
  dflt := { genes := List.replicate 32 false }
  fitness := fitness
  getGenes := getGenes
  getFitness := getFitness

end UIntIndividual

/-! ## Concrete states for evaluating the operators -/

namespace HsBa.GA

/-- A state of the sample engine: one individual per listed value, and the listed raw
words as the state of a `scriptedEngine`. -/
def sampleState (values : List Nat) (words : List Nat) :
    GeneticAlgorithm UIntIndividual (List Nat) :=
  { population :=
      values.map (fun v => UIntIndividual.individual.construct (UIntIndividual.encode v)),
    randomEngine := words }

/-- The decoded values of a population of the sample engine. -/
def decodedValues (population : List UIntIndividual) : List Nat :=
  population.map (fun x => UIntIndividual.decode (UIntIndividual.getGenes x))

end HsBa.GA

/-! ## A script of draws that reaches the optimum of the sample -/

namespace HsBa.GA

/-- The 32-bit gene vector whose bits below `k` are set and whose other bits are clear. -/
def onesBelow (k : Nat) : List Bool :=
  List.replicate k true ++ List.replicate (32 - k) false

/-- Raw words for `n` generations of the sample engine, starting at bit `j`: in each
generation the cut point 0 for Crossover, then the slot 0 and the bit `j`, `j + 1`, ...
for Mutation. -/
def climbScript : Nat → Nat → List Nat
  | 0, _ => []
  | n + 1, j => 0 :: 0 :: j :: climbScript n (j + 1)

end HsBa.GA

/-! ## A second individual type -/

namespace HsBa.GA

/-- An individual type meeting `Individual<unsigned long, N, _>` whose fitness is the
number of set bits of its genes, so that distinct gene vectors can have equal fitness.
The individual is its gene vector; `encode` lists the `N` low bits of the value and
`decode` sums them back. -/
def bitCountIndividual (N : Nat) : Individual Nat (List Bool) where
  encode := fun value => (List.range N).map (fun j => value.testBit j)
  decode := UIntIndividual.to_ulong
  construct := fun genes => genes
  dflt := List.replicate N false
  fitness := fun genes => ((genes.count true : Nat) : ℚ)
  getGenes := fun genes => genes
  getFitness := fun genes => ((genes.count true : Nat) : ℚ)

/-- Individuals of `bitCountIndividual 20`, one per listed position `k`, the genes of
each having bit `k` alone set, so that all are of fitness 1. -/
def oneBitIndividuals (positions : List Nat) : List (List Bool) :=
  positions.map (fun k => (bitCountIndividual 20).construct
    ((bitCountIndividual 20).encode (2 ^ k)))

end HsBa.GA

/-! # Properties -/

namespace HsBa.GA

/-! ## Selection -/

theorem fitnessGreater_strictWeakOrdering {T TIndividual : Type}
    (I : Individual T TIndividual) : StrictWeakOrdering (fitnessGreater I) := by
  refine ⟨?_, ?_, ?_⟩
  · intro a
    simp [fitnessGreater]
  · intro a b c hab hbc
    simp only [fitnessGreater, decide_eq_true_eq] at *
    exact lt_trans hbc hab
  · intro a b c hab hba hbc hcb
    simp only [fitnessGreater, decide_eq_false_iff_not, not_lt] at *
    exact ⟨le_trans hab hbc, le_trans hcb hba⟩

theorem Selection_pairwise {T TIndividual σ : Type} (S : StdSort)
    (I : Individual T TIndividual) (ga : GeneticAlgorithm TIndividual σ) :
    (Selection S I ga).population.Pairwise (fun a b => I.getFitness a ≥ I.getFitness b) := by
  have h := S.sorted (fitnessGreater I) ga.population (fitnessGreater_strictWeakOrdering I)
  refine List.Pairwise.imp ?_ h
  intro a b hab
  simpa [fitnessGreater] using hab

/-- C1: after Selection the population is ordered by descending fitness: for every
adjacent pair of positions `(i, i+1)` inside the population, `getFitness` of the
individual at `i` is at least `getFitness` of the individual at `i+1`. -/
theorem C1_Selection_descending {T TIndividual σ : Type} (S : StdSort)
    (I : Individual T TIndividual) (ga : GeneticAlgorithm TIndividual σ) (i : Nat)
    (h : i + 1 < (Selection S I ga).population.length) :
    I.getFitness ((Selection S I ga).population.get ⟨i, Nat.lt_of_succ_lt h⟩) ≥
      I.getFitness ((Selection S I ga).population.get ⟨i + 1, h⟩) := by
  have hp := Selection_pairwise S I ga
  rw [List.pairwise_iff_get] at hp
  exact hp ⟨i, Nat.lt_of_succ_lt h⟩ ⟨i + 1, h⟩ (by simp)

/-- Witness of C1 on a three-individual population of the sample. -/
theorem C1_Selection_descending_witness :
    ∃ h : 0 + 1 < (Selection insertionStdSort UIntIndividual.individual
        (sampleState [1, 7, 3] [])).population.length,
      UIntIndividual.individual.getFitness
          ((Selection insertionStdSort UIntIndividual.individual
            (sampleState [1, 7, 3] [])).population.get ⟨0, Nat.lt_of_succ_lt h⟩) ≥
        UIntIndividual.individual.getFitness
          ((Selection insertionStdSort UIntIndividual.individual
            (sampleState [1, 7, 3] [])).population.get ⟨0 + 1, h⟩) :=
  ⟨by decide, C1_Selection_descending insertionStdSort UIntIndividual.individual
    (sampleState [1, 7, 3] []) 0 (by decide)⟩

/-! ## Crossover -/

theorem assignAt_eq_some {α : Type} (a : List α) (i : Nat) (v : α) (h : i < a.length) :
    assignAt a i v = some (a.set i v) := by
  simp [assignAt, h]

theorem assignAt_length {α : Type} {a b : List α} {i : Nat} {v : α}
    (h : assignAt a i v = some b) : b.length = a.length := by
  unfold assignAt at h
  split at h
  · cases h; simp
  · cases h

theorem swapLoop_defined (N : Nat) :
    ∀ (fuel j : Nat) (child1 child2 : List Bool), child1.length = N → child2.length = N →
      ∃ r, swapLoop N fuel j child1 child2 = some r ∧ r.1.length = N ∧ r.2.length = N := by
  intro fuel
  induction fuel with
  | zero =>
    intro j c1 c2 h1 h2
    exact ⟨(c1, c2), rfl, h1, h2⟩
  | succ fuel ih =>
    intro j c1 c2 h1 h2
    by_cases hj : j < N
    · have e1 : c1[j]? = some (c1.get ⟨j, by omega⟩) := by simp [List.getElem?_eq_getElem, h1, hj]
      have e2 : c2[j]? = some (c2.get ⟨j, by omega⟩) := by simp [List.getElem?_eq_getElem, h2, hj]
      have a1 := assignAt_eq_some c1 j (c2.get ⟨j, by omega⟩) (by omega)
      have a2 := assignAt_eq_some c2 j (c1.get ⟨j, by omega⟩) (by omega)
      obtain ⟨r, hr, hr1, hr2⟩ := ih (j + 1) (c1.set j (c2.get ⟨j, by omega⟩))
        (c2.set j (c1.get ⟨j, by omega⟩)) (by simp [h1]) (by simp [h2])
      refine ⟨r, ?_, hr1, hr2⟩
      simp only [swapLoop, hj, if_true, e1, e2, a1, a2]
      exact hr
    · exact ⟨(c1, c2), by simp [swapLoop, hj], h1, h2⟩

theorem crossoverLoop_defined {T TIndividual : Type} (I : Individual T TIndividual)
    (N P c : Nat) (population : List TIndividual) (parent1 parent2 : TIndividual)
    (h0 : population[0]? = some parent1) (h1 : population[1]? = some parent2)
    (g1 : (I.getGenes parent1).length = N) (g2 : (I.getGenes parent2).length = N) :
    ∀ (fuel i : Nat) (newPopulation : List TIndividual), newPopulation.length = P →
      ∃ r, crossoverLoop I N P c population fuel i newPopulation = some r := by
  intro fuel
  induction fuel with
  | zero => intro i np _; exact ⟨np, rfl⟩
  | succ fuel ih =>
    intro i np hnp
    by_cases hi : i < P
    · obtain ⟨r, hr, _, _⟩ := swapLoop_defined N (N - c) c _ _ g1 g2
      have a1 := assignAt_eq_some np i (I.construct r.1) (by omega)
      by_cases hi1 : i + 1 < P
      · have a2 := assignAt_eq_some (np.set i (I.construct r.1)) (i + 1) (I.construct r.2)
          (by simp; omega)
        obtain ⟨q, hq⟩ := ih (i + 2) ((np.set i (I.construct r.1)).set (i + 1)
          (I.construct r.2)) (by simp [hnp])
        refine ⟨q, ?_⟩
        simp only [crossoverLoop, hi, if_true, h0, h1, hr, a1, hi1, a2]
        exact hq
      · obtain ⟨q, hq⟩ := ih (i + 2) (np.set i (I.construct r.1)) (by simp [hnp])
        refine ⟨q, ?_⟩
        simp only [crossoverLoop, hi, if_true, h0, h1, hr, a1, hi1, if_false]
        exact hq
    · exact ⟨np, by simp [crossoverLoop, hi]⟩

theorem Crossover_population {T TIndividual σ : Type} (I : Individual T TIndividual)
    (E : TRandomEngine σ) (N P : Nat) (ga ga1 : GeneticAlgorithm TIndividual σ)
    (h : Crossover I E N P ga = some ga1) :
    ga1.population = ga.population ∧
      ga1.randomEngine = (E.uniform 0 (subOne N) ga.randomEngine).2 := by
  unfold Crossover at h
  simp only at h
  split at h
  · cases h; exact ⟨rfl, rfl⟩
  · cases h

theorem Crossover_defined {T TIndividual σ : Type} (I : Individual T TIndividual)
    (E : TRandomEngine σ) (N P : Nat) (ga : GeneticAlgorithm TIndividual σ)
    (hw : WellFormed I N P ga) (hP : 2 ≤ P) :
    Crossover I E N P ga =
      some { ga with randomEngine := (E.uniform 0 (subOne N) ga.randomEngine).2 } := by
  obtain ⟨hlen, hgenes⟩ := hw
  have l0 : 0 < ga.population.length := by omega
  have l1 : 1 < ga.population.length := by omega
  have h0 : ga.population[0]? = some (ga.population.get ⟨0, l0⟩) := by
    simp [List.getElem?_eq_getElem, l0]
  have h1 : ga.population[1]? = some (ga.population.get ⟨1, l1⟩) := by
    simp [List.getElem?_eq_getElem, l1]
  obtain ⟨r, hr⟩ := crossoverLoop_defined I N P (E.uniform 0 (subOne N) ga.randomEngine).1
    ga.population _ _ h0 h1 (hgenes _ (List.get_mem _ _ _)) (hgenes _ (List.get_mem _ _ _))
    P 0 (List.replicate P I.dflt) (by simp)
  simp only [Crossover, crossoverNewPopulation, hr]

/-- C3: Crossover leaves the population as it was. Whenever it completes, every slot
holds the individual it held before and only the random engine has advanced (by the one
draw of the cut point); and on every population of `P >= 2` individuals with `N`-bit
genes it does complete. -/
theorem C3_Crossover_noop {T TIndividual σ : Type} (I : Individual T TIndividual)
    (E : TRandomEngine σ) (N P : Nat) (ga : GeneticAlgorithm TIndividual σ) :
    (∀ ga1, Crossover I E N P ga = some ga1 →
      ga1.population = ga.population ∧
        ga1.randomEngine = (E.uniform 0 (subOne N) ga.randomEngine).2) ∧
    (WellFormed I N P ga → 2 ≤ P →
      Crossover I E N P ga =
        some { ga with randomEngine := (E.uniform 0 (subOne N) ga.randomEngine).2 }) :=
  ⟨fun ga1 h => Crossover_population I E N P ga ga1 h, Crossover_defined I E N P ga⟩

/-- Witness of C3: a three-individual population of the sample, cut point 16. -/
theorem C3_Crossover_noop_witness :
    WellFormed UIntIndividual.individual 32 3 (sampleState [1, 7, 3] [16, 5]) ∧ 2 ≤ 3 ∧
      Crossover UIntIndividual.individual (scriptedEngine (fun _ => [])) 32 3
          (sampleState [1, 7, 3] [16, 5]) =
        some { population := (sampleState [1, 7, 3] [16, 5]).population,
               randomEngine := [5] } :=
  ⟨⟨by decide, by decide⟩, by decide,
    (C3_Crossover_noop UIntIndividual.individual (scriptedEngine (fun _ => [])) 32 3
      (sampleState [1, 7, 3] [16, 5])).2 ⟨by decide, by decide⟩ (by decide)⟩

/-- C2 at a concrete input: parents `4294967295` and `0`, two slots, cut point 16.
Crossover builds the children `65535` and `4294901760` in its local array, and the
population it leaves still holds the two parents. -/
theorem C2_Crossover_discards_children :
    crossoverNewPopulation UIntIndividual.individual 32 2 16
        (sampleState [4294967295, 0] [16]).population =
      some (sampleState [65535, 4294901760] []).population ∧
    (Crossover UIntIndividual.individual (scriptedEngine (fun _ => [])) 32 2
        (sampleState [4294967295, 0] [16])).map (fun ga => decodedValues ga.population) =
      some [4294967295, 0] ∧
    decodedValues (sampleState [65535, 4294901760] []).population = [65535, 4294901760] := by
  refine ⟨by decide, by decide, by decide⟩

/-! ## Mutation -/

theorem Mutation_spec {T TIndividual σ : Type} (I : Individual T TIndividual)
    (E : TRandomEngine σ) (N P : Nat) (ga : GeneticAlgorithm TIndividual σ) (i j : Nat)
    (hw : WellFormed I N P ga)
    (hdi : (E.uniform 0 (subOne P) ga.randomEngine).1 = i)
    (hdj : (E.uniform 0 (subOne N) (E.uniform 0 (subOne P) ga.randomEngine).2).1 = j)
    (hi : i < P) (hj : j < N) :
    ∃ (x : TIndividual) (bit : Bool),
      ga.population[i]? = some x ∧ (I.getGenes x)[j]? = some bit ∧
      Mutation I E N P ga = some
        { population := ga.population.set i (I.construct ((I.getGenes x).set j (!bit))),
          randomEngine :=
            (E.uniform 0 (subOne N) (E.uniform 0 (subOne P) ga.randomEngine).2).2 } := by
  obtain ⟨hlen, hgenes⟩ := hw
  have li : i < ga.population.length := by omega
  have hx : ga.population[i]? = some (ga.population.get ⟨i, li⟩) := by
    simp [List.getElem?_eq_getElem, li]
  have hg : (I.getGenes (ga.population.get ⟨i, li⟩)).length = N :=
    hgenes _ (List.get_mem _ _ _)
  have lj : j < (I.getGenes (ga.population.get ⟨i, li⟩)).length := by omega
  have hb : (I.getGenes (ga.population.get ⟨i, li⟩))[j]? =
      some ((I.getGenes (ga.population.get ⟨i, li⟩)).get ⟨j, lj⟩) := by
    simp [List.getElem?_eq_getElem, lj]
  refine ⟨_, _, hx, hb, ?_⟩
  have a1 := assignAt_eq_some (I.getGenes (ga.population.get ⟨i, li⟩)) j
    (!(I.getGenes (ga.population.get ⟨i, li⟩)).get ⟨j, lj⟩) lj
  have a2 := assignAt_eq_some ga.population i
    (I.construct ((I.getGenes (ga.population.get ⟨i, li⟩)).set j
      (!(I.getGenes (ga.population.get ⟨i, li⟩)).get ⟨j, lj⟩))) li
  simp only [Mutation, hdi, hdj, hx, hb, a1, a2]

/-- C4: with `P >= 1`, `N >= 1`, drawn individual index `i` in `[0, P-1]`, drawn bit
index `j` in `[0, N-1]` and a constructor that stores the given genes exactly, Mutation
completes, keeps `P` slots, leaves every slot other than `i` unchanged, and the genes
in slot `i` keep their length, have bit `j` complemented and every other bit unchanged;
so the genes of exactly the individual in slot `i` differ from before. -/
theorem C4_Mutation_flips_one_bit {T TIndividual σ : Type} (I : Individual T TIndividual)
    (E : TRandomEngine σ) (N P : Nat) (ga : GeneticAlgorithm TIndividual σ) (i j : Nat)
    (hw : WellFormed I N P ga) (hs : I.StoresGenes) (hP : 1 ≤ P) (hN : 1 ≤ N)
    (hdi : (E.uniform 0 (subOne P) ga.randomEngine).1 = i)
    (hdj : (E.uniform 0 (subOne N) (E.uniform 0 (subOne P) ga.randomEngine).2).1 = j)
    (hi : i ≤ P - 1) (hj : j ≤ N - 1) :
    ∃ (ga1 : GeneticAlgorithm TIndividual σ) (x x1 : TIndividual) (bit : Bool),
      Mutation I E N P ga = some ga1 ∧
      ga1.population.length = P ∧
      (∀ k, k ≠ i → ga1.population[k]? = ga.population[k]?) ∧
      ga.population[i]? = some x ∧ ga1.population[i]? = some x1 ∧
      (I.getGenes x1).length = N ∧
      (I.getGenes x)[j]? = some bit ∧ (I.getGenes x1)[j]? = some (!bit) ∧
      (∀ m, m ≠ j → (I.getGenes x1)[m]? = (I.getGenes x)[m]?) ∧
      I.getGenes x1 ≠ I.getGenes x := by
  obtain ⟨x, bit, hx, hb, hm⟩ := Mutation_spec I E N P ga i j hw hdi hdj (by omega) (by omega)
  have li : i < ga.population.length := by rw [hw.1]; omega
  have hxm : x ∈ ga.population := List.getElem?_mem hx
  have hg : (I.getGenes x).length = N := hw.2 x hxm
  have lj : j < (I.getGenes x).length := by omega
  have hnew : (I.getGenes (I.construct ((I.getGenes x).set j (!bit))))[j]? = some (!bit) := by
    rw [hs]; simp [List.getElem?_set, lj]
  refine ⟨_, x, I.construct ((I.getGenes x).set j (!bit)), bit, hm, ?_, ?_, hx, ?_, ?_, hb,
    hnew, ?_, ?_⟩
  · simp [hw.1]
  · intro k hk
    simp [List.getElem?_set, Ne.symm hk]
  · simp [List.getElem?_set, li]
  · rw [hs]; simp [hg]
  · intro m hmj
    rw [hs]
    simp [List.getElem?_set, Ne.symm hmj]
  · intro heq
    rw [heq, hb] at hnew
    cases bit <;> simp at hnew

/-- Witness of C4: three individuals of the sample, drawn slot 1 and drawn bit 4. -/
theorem C4_Mutation_flips_one_bit_witness :
    ∃ (ga1 : GeneticAlgorithm UIntIndividual (List Nat)) (x x1 : UIntIndividual) (bit : Bool),
      Mutation UIntIndividual.individual (scriptedEngine (fun _ => [])) 32 3
        (sampleState [1, 7, 3] [1, 4]) = some ga1 ∧
      ga1.population.length = 3 ∧
      (∀ k, k ≠ 1 → ga1.population[k]? = (sampleState [1, 7, 3] [1, 4]).population[k]?) ∧
      (sampleState [1, 7, 3] [1, 4]).population[1]? = some x ∧ ga1.population[1]? = some x1 ∧
      (UIntIndividual.individual.getGenes x1).length = 32 ∧
      (UIntIndividual.individual.getGenes x)[4]? = some bit ∧
      (UIntIndividual.individual.getGenes x1)[4]? = some (!bit) ∧
      (∀ m, m ≠ 4 → (UIntIndividual.individual.getGenes x1)[m]? =
        (UIntIndividual.individual.getGenes x)[m]?) ∧
      UIntIndividual.individual.getGenes x1 ≠ UIntIndividual.individual.getGenes x :=
  C4_Mutation_flips_one_bit UIntIndividual.individual (scriptedEngine (fun _ => [])) 32 3
    (sampleState [1, 7, 3] [1, 4]) 1 4 ⟨by decide, by decide⟩ (fun _ => rfl)
    (by decide) (by decide) (by decide) (by decide) (by decide) (by decide)

/-! ## Invariants of a well-formed state -/

theorem subOne_eq (n : Nat) (h1 : 1 ≤ n) (h2 : n ≤ SIZE_MAX) : subOne n = n - 1 := by
  unfold subOne SIZE_MAX at *
  omega

theorem scriptedEngine_inRange (script : Nat → List Nat) : (scriptedEngine script).InRange := by
  intro a b s hab
  cases s with
  | nil => exact ⟨Nat.le_refl _, hab⟩
  | cons w rest =>
    have hlt : w % (b - a + 1) < b - a + 1 := Nat.mod_lt _ (by omega)
    constructor
    · show a ≤ a + w % (b - a + 1)
      omega
    · show a + w % (b - a + 1) ≤ b
      omega

theorem Selection_wellFormed {T TIndividual σ : Type} (S : StdSort)
    (I : Individual T TIndividual) (N P : Nat) (ga : GeneticAlgorithm TIndividual σ)
    (hw : WellFormed I N P ga) : WellFormed I N P (Selection S I ga) := by
  have hp := S.perm (fitnessGreater I) ga.population (fitnessGreater_strictWeakOrdering I)
  refine ⟨?_, ?_⟩
  · show (S.sort (fitnessGreater I) ga.population).length = P
    rw [hp.length_eq]; exact hw.1
  · intro x hx
    exact hw.2 x (hp.mem_iff.mp hx)

theorem Mutation_wellFormed {T TIndividual σ : Type} (I : Individual T TIndividual)
    (E : TRandomEngine σ) (N P : Nat) (ga : GeneticAlgorithm TIndividual σ)
    (hw : WellFormed I N P ga) (hs : I.StoresGenes) (hE : E.InRange)
    (hP : 1 ≤ P) (hP2 : P ≤ SIZE_MAX) (hN : 1 ≤ N) (hN2 : N ≤ SIZE_MAX) :
    ∃ ga1, Mutation I E N P ga = some ga1 ∧ WellFormed I N P ga1 := by
  have hi := (hE 0 (subOne P) ga.randomEngine (Nat.zero_le _)).2
  have hj := (hE 0 (subOne N) (E.uniform 0 (subOne P) ga.randomEngine).2 (Nat.zero_le _)).2
  have hP3 := subOne_eq P hP hP2
  have hN3 := subOne_eq N hN hN2
  obtain ⟨x, bit, hx, hb, hm⟩ := Mutation_spec I E N P ga _ _ hw rfl rfl
    (show (E.uniform 0 (subOne P) ga.randomEngine).1 < P by omega)
    (show (E.uniform 0 (subOne N) (E.uniform 0 (subOne P) ga.randomEngine).2).1 < N by omega)
  refine ⟨_, hm, ?_, ?_⟩
  · simp [hw.1]
  · intro y hy
    rcases List.mem_or_eq_of_mem_set hy with h | h
    · exact hw.2 y h
    · rw [h, hs]
      simp [hw.2 x (List.getElem?_mem hx)]

theorem specGeneration_defined {T TIndividual σ : Type} (S : StdSort)
    (I : Individual T TIndividual) (E : TRandomEngine σ) (N P : Nat)
    (ga : GeneticAlgorithm TIndividual σ)
    (hw : WellFormed I N P ga) (hs : I.StoresGenes) (hE : E.InRange)
    (hP : 2 ≤ P) (hP2 : P ≤ SIZE_MAX) (hN : 1 ≤ N) (hN2 : N ≤ SIZE_MAX) :
    ∃ ga1, specGeneration S I E N P ga = some ga1 ∧ WellFormed I N P ga1 := by
  have hsel := Selection_wellFormed S I N P ga hw
  have hc := Crossover_defined I E N P (Selection S I ga) hsel hP
  have hw1 : WellFormed I N P { Selection S I ga with
      randomEngine := (E.uniform 0 (subOne N) (Selection S I ga).randomEngine).2 } := hsel
  obtain ⟨ga1, hm, hw2⟩ := Mutation_wellFormed I E N P _ hw1 hs hE (by omega) hP2 hN hN2
  refine ⟨ga1, ?_, hw2⟩
  rw [specGeneration, hc]
  exact hm

theorem specGenerations_defined {T TIndividual σ : Type} (S : StdSort)
    (I : Individual T TIndividual) (E : TRandomEngine σ) (N P : Nat)
    (hs : I.StoresGenes) (hE : E.InRange)
    (hP : 2 ≤ P) (hP2 : P ≤ SIZE_MAX) (hN : 1 ≤ N) (hN2 : N ≤ SIZE_MAX) :
    ∀ (G : Nat) (ga : GeneticAlgorithm TIndividual σ), WellFormed I N P ga →
      ∃ gaG, specGenerations S I E N P G ga = some gaG ∧ WellFormed I N P gaG := by
  intro G
  induction G with
  | zero => intro ga hw; exact ⟨ga, rfl, hw⟩
  | succ G ih =>
    intro ga hw
    obtain ⟨ga1, h1, hw1⟩ := specGeneration_defined S I E N P ga hw hs hE hP hP2 hN hN2
    obtain ⟨gaG, h2, hw2⟩ := ih ga1 hw1
    refine ⟨gaG, ?_, hw2⟩
    rw [specGenerations, h1]
    exact h2

theorem top_defined {T TIndividual σ : Type} (I : Individual T TIndividual) (N P : Nat)
    (ga : GeneticAlgorithm TIndividual σ) (hw : WellFormed I N P ga) (hP : 1 ≤ P) :
    ∃ top, ga.population[0]? = some top := by
  have l0 : 0 < ga.population.length := by rw [hw.1]; omega
  exact ⟨ga.population.get ⟨0, l0⟩, by simp [List.getElem?_eq_getElem, l0]⟩

/-! ## The generation-bound run -/

theorem Generation_runLoop_eq_specGenerations {T TIndividual σ : Type} (S : StdSort)
    (I : Individual T TIndividual) (E : TRandomEngine σ) (N P generation : Nat) :
    ∀ (fuel i : Nat) (ga : GeneticAlgorithm TIndividual σ), i + fuel = generation →
      Generation.runLoop S I E N P generation fuel i ga = specGenerations S I E N P fuel ga := by
  intro fuel
  induction fuel with
  | zero => intro i ga _; rfl
  | succ fuel ih =>
    intro i ga hi
    have hlt : i < generation := by omega
    simp only [Generation.runLoop, hlt, if_true, specGenerations, specGeneration]
    cases hc : Crossover I E N P (Selection S I ga) with
    | none => rfl
    | some ga1 =>
      cases hm : Mutation I E N P ga1 with
      | none => simp [hm]
      | some ga2 =>
        have h := ih (i + 1) ga2 (by omega)
        simp only [Option.some_bind, hm]
        exact h

/-- C5: the generation-bound `Run(G)` is exactly `G` iterations of (Selection,
Crossover, Mutation) with no test in between, then one final Selection, then the decoded
genes of the individual at position 0; `Run(0)` is the final Selection alone; and from
a well-formed population with `P >= 2`, `N >= 1` and in-range draws it returns. -/
theorem C5_Generation_Run_exact {T TIndividual σ : Type} (S : StdSort)
    (I : Individual T TIndividual) (E : TRandomEngine σ) (N P G : Nat)
    (ga : GeneticAlgorithm TIndividual σ) :
    Generation.Run S I E N P G ga = specRunGeneration S I E N P G ga ∧
    Generation.Run S I E N P 0 ga = returnTop I (Selection S I ga) ∧
    (WellFormed I N P ga → I.StoresGenes → E.InRange →
      2 ≤ P → P ≤ SIZE_MAX → 1 ≤ N → N ≤ SIZE_MAX →
      ∃ gaG top, specGenerations S I E N P G ga = some gaG ∧
        (Selection S I gaG).population[0]? = some top ∧
        Generation.Run S I E N P G ga =
          some (I.decode (I.getGenes top), Selection S I gaG)) := by
  have hrun : ∀ G, Generation.Run S I E N P G ga = specRunGeneration S I E N P G ga := by
    intro G
    unfold Generation.Run specRunGeneration
    rw [Generation_runLoop_eq_specGenerations S I E N P G G 0 ga (by omega)]
    cases specGenerations S I E N P G ga <;> rfl
  refine ⟨hrun G, rfl, ?_⟩
  intro hw hs hE hP hP2 hN hN2
  obtain ⟨gaG, hG, hwG⟩ := specGenerations_defined S I E N P hs hE hP hP2 hN hN2 G ga hw
  obtain ⟨top, htop⟩ := top_defined I N P _ (Selection_wellFormed S I N P gaG hwG) (by omega)
  refine ⟨gaG, top, hG, htop, ?_⟩
  rw [hrun G]
  simp only [specRunGeneration, hG, Option.some_bind, returnTop, htop]

/-- Witness of C5: two generations of the sample engine on three individuals. -/
theorem C5_Generation_Run_exact_witness :
    WellFormed UIntIndividual.individual 32 3 (sampleState [1, 7, 3] [16, 1, 4, 9, 0, 31]) ∧
    UIntIndividual.individual.StoresGenes ∧ (scriptedEngine (fun _ => [])).InRange ∧
    2 ≤ 3 ∧ 3 ≤ SIZE_MAX ∧ 1 ≤ 32 ∧ 32 ≤ SIZE_MAX ∧
    ∃ gaG top,
      specGenerations insertionStdSort UIntIndividual.individual
        (scriptedEngine (fun _ => [])) 32 3 2
        (sampleState [1, 7, 3] [16, 1, 4, 9, 0, 31]) = some gaG ∧
      (Selection insertionStdSort UIntIndividual.individual gaG).population[0]? = some top ∧
      Generation.Run insertionStdSort UIntIndividual.individual
        (scriptedEngine (fun _ => [])) 32 3 2
        (sampleState [1, 7, 3] [16, 1, 4, 9, 0, 31]) =
          some (UIntIndividual.individual.decode (UIntIndividual.individual.getGenes top),
            Selection insertionStdSort UIntIndividual.individual gaG) :=
  ⟨⟨by decide, by decide⟩, fun _ => rfl, scriptedEngine_inRange _, by decide, by decide,
    by decide, by decide,
    (C5_Generation_Run_exact insertionStdSort UIntIndividual.individual
      (scriptedEngine (fun _ => [])) 32 3 2
      (sampleState [1, 7, 3] [16, 1, 4, 9, 0, 31])).2.2 ⟨by decide, by decide⟩ (fun _ => rfl)
      (scriptedEngine_inRange _) (by decide) (by decide) (by decide) (by decide)⟩

/-! ## The fitness-bound run -/

theorem Selection_top_max {T TIndividual σ : Type} (S : StdSort)
    (I : Individual T TIndividual) (ga : GeneticAlgorithm TIndividual σ) (top : TIndividual)
    (htop : (Selection S I ga).population[0]? = some top) :
    top ∈ (Selection S I ga).population ∧
      ∀ y ∈ (Selection S I ga).population, I.getFitness y ≤ I.getFitness top := by
  have hp := Selection_pairwise S I ga
  refine ⟨List.getElem?_mem htop, ?_⟩
  cases hl : (Selection S I ga).population with
  | nil => intro y hy; cases hy
  | cons a rest =>
    rw [hl] at htop hp
    have hta : a = top := by simpa using htop
    subst hta
    intro y hy
    rcases List.mem_cons.mp hy with h | h
    · rw [h]
    · exact (List.pairwise_cons.mp hp).1 y h

theorem returnTop_Selection_best {T TIndividual σ : Type} (S : StdSort)
    (I : Individual T TIndividual) (ga gaF : GeneticAlgorithm TIndividual σ) (v : T)
    (h : returnTop I (Selection S I ga) = some (v, gaF)) : DecodesBest I v gaF := by
  unfold returnTop at h
  cases htop : (Selection S I ga).population[0]? with
  | none => rw [htop] at h; cases h
  | some top =>
    rw [htop] at h
    simp only [Option.some.injEq, Prod.mk.injEq] at h
    obtain ⟨hv, hg⟩ := h
    subst hg
    obtain ⟨hmem, hmax⟩ := Selection_top_max S I ga top htop
    exact ⟨top, hmem, hv.symm, hmax⟩

theorem Fitness_Run_terminated {T TIndividual σ : Type} (S : StdSort)
    (I : Individual T TIndividual) (E : TRandomEngine σ) (N P : Nat) (fitness : ℚ) :
    ∀ (fuel : Nat) (ga : GeneticAlgorithm TIndividual σ) (v : T)
      (gaF : GeneticAlgorithm TIndividual σ),
      Fitness.Run S I E N P fitness fuel ga = some (RunState.Terminated v gaF) →
      ∃ m gam top, m < fuel ∧ specGenerations S I E N P m ga = some gam ∧
        gaF = Selection S I gam ∧ gaF.population[0]? = some top ∧
        I.getFitness top ≥ fitness ∧ v = I.decode (I.getGenes top) ∧
        ∀ k, k < m → ∃ gak topk, specGenerations S I E N P k ga = some gak ∧
          (Selection S I gak).population[0]? = some topk ∧ I.getFitness topk < fitness := by
  intro fuel
  induction fuel with
  | zero => intro ga v gaF h; cases h
  | succ fuel ih =>
    intro ga v gaF h
    unfold Fitness.Run at h
    simp only at h
    cases htop : (Selection S I ga).population[0]? with
    | none => rw [htop] at h; cases h
    | some top =>
      rw [htop] at h
      by_cases hge : I.getFitness top ≥ fitness
      · simp only [hge, if_true, returnTop, htop] at h
        simp only [Option.some.injEq, RunState.Terminated.injEq] at h
        obtain ⟨hv, hg⟩ := h
        subst hg
        exact ⟨0, ga, top, Nat.succ_pos _, rfl, rfl, htop, hge, hv.symm,
          fun k hk => absurd hk (Nat.not_lt_zero k)⟩
      · simp only [hge, if_false] at h
        cases hc : Crossover I E N P (Selection S I ga) with
        | none => simp [hc] at h
        | some ga2 =>
          cases hm : Mutation I E N P ga2 with
          | none => simp [hc, hm] at h
          | some ga3 =>
            simp only [hc, hm] at h
            have hgen : specGeneration S I E N P ga = some ga3 := by
              rw [specGeneration, hc]; exact hm
            obtain ⟨m, gam, topm, hlt, hspec, hF, htopF, hgeF, hvF, hbefore⟩ := ih ga3 v gaF h
            refine ⟨m + 1, gam, topm, Nat.succ_lt_succ hlt, ?_, hF, htopF, hgeF, hvF, ?_⟩
            · rw [specGenerations, hgen]; exact hspec
            · intro k hk
              cases k with
              | zero => exact ⟨ga, top, rfl, htop, lt_of_not_ge hge⟩
              | succ k =>
                obtain ⟨gak, topk, h1, h2, h3⟩ := hbefore k (Nat.lt_of_succ_lt_succ hk)
                refine ⟨gak, topk, ?_, h2, h3⟩
                rw [specGenerations, hgen]; exact h1

theorem Fitness_Run_stops {T TIndividual σ : Type} (S : StdSort)
    (I : Individual T TIndividual) (E : TRandomEngine σ) (N P : Nat) (fitness : ℚ) :
    ∀ (m : Nat) (ga gam : GeneticAlgorithm TIndividual σ) (top : TIndividual),
      specGenerations S I E N P m ga = some gam →
      (Selection S I gam).population[0]? = some top → I.getFitness top ≥ fitness →
      (∀ k, k < m → ∃ gak topk, specGenerations S I E N P k ga = some gak ∧
        (Selection S I gak).population[0]? = some topk ∧ I.getFitness topk < fitness) →
      ∀ extra, Fitness.Run S I E N P fitness (m + extra + 1) ga =
        some (RunState.Terminated (I.decode (I.getGenes top)) (Selection S I gam)) := by
  intro m
  induction m with
  | zero =>
    intro ga gam top hspec htop hge _ extra
    simp only [specGenerations, Option.some.injEq] at hspec
    subst hspec
    simp only [Fitness.Run, htop, hge, if_true, returnTop]
  | succ m ih =>
    intro ga gam top hspec htop hge hbefore extra
    obtain ⟨ga0, top0, h0, htop0, hlt0⟩ := hbefore 0 (Nat.succ_pos m)
    simp only [specGenerations, Option.some.injEq] at h0
    subst h0
    rw [specGenerations] at hspec
    cases hgen : specGeneration S I E N P ga with
    | none => rw [hgen] at hspec; cases hspec
    | some ga3 =>
      rw [hgen] at hspec
      have hspec3 : specGenerations S I E N P m ga3 = some gam := hspec
      rw [specGeneration] at hgen
      cases hc : Crossover I E N P (Selection S I ga) with
      | none => rw [hc] at hgen; cases hgen
      | some ga2 =>
        rw [hc] at hgen
        have hm : Mutation I E N P ga2 = some ga3 := hgen
        have hrest := ih ga3 gam top hspec3 htop hge (by
          intro k hk
          obtain ⟨gak, topk, h1, h2, h3⟩ := hbefore (k + 1) (Nat.succ_lt_succ hk)
          refine ⟨gak, topk, ?_, h2, h3⟩
          rw [specGenerations, specGeneration, hc] at h1
          simp only [Option.some_bind, hm] at h1
          exact h1) extra
        have hfuel : m + 1 + extra + 1 = (m + extra + 1) + 1 := by omega
        rw [hfuel, Fitness.Run]
        simp only [htop0, not_le.mpr hlt0, if_false, hc, hm]
        exact hrest

/-- C6: whenever the fitness-bound `Run(threshold)` returns, the value is the decoded
genes of an individual of the final population whose fitness is at least the threshold;
the final population is the outcome of the first Selection (after `m` full generations,
each of whose Selections left a top individual below the threshold) whose top individual
reaches the threshold, with no Crossover or Mutation after it; conversely the run does
return at that first Selection; and when the initial population already holds such an
individual the run returns after the first Selection, with no mutation performed. -/
theorem C6_Fitness_Run_stops_at_first_fit {T TIndividual σ : Type} (S : StdSort)
    (I : Individual T TIndividual) (E : TRandomEngine σ) (N P : Nat) (fitness : ℚ)
    (ga : GeneticAlgorithm TIndividual σ) :
    (∀ (fuel : Nat) (v : T) (gaF : GeneticAlgorithm TIndividual σ),
      Fitness.Run S I E N P fitness fuel ga = some (RunState.Terminated v gaF) →
      (∃ x ∈ gaF.population, v = I.decode (I.getGenes x) ∧ I.getFitness x ≥ fitness) ∧
      ∃ m gam top, m < fuel ∧ specGenerations S I E N P m ga = some gam ∧
        gaF = Selection S I gam ∧ gaF.population[0]? = some top ∧
        I.getFitness top ≥ fitness ∧ v = I.decode (I.getGenes top) ∧
        ∀ k, k < m → ∃ gak topk, specGenerations S I E N P k ga = some gak ∧
          (Selection S I gak).population[0]? = some topk ∧ I.getFitness topk < fitness) ∧
    (∀ (m : Nat) (gam : GeneticAlgorithm TIndividual σ) (top : TIndividual),
      specGenerations S I E N P m ga = some gam →
      (Selection S I gam).population[0]? = some top → I.getFitness top ≥ fitness →
      (∀ k, k < m → ∃ gak topk, specGenerations S I E N P k ga = some gak ∧
        (Selection S I gak).population[0]? = some topk ∧ I.getFitness topk < fitness) →
      ∀ extra, Fitness.Run S I E N P fitness (m + extra + 1) ga =
        some (RunState.Terminated (I.decode (I.getGenes top)) (Selection S I gam))) ∧
    (∀ x ∈ ga.population, I.getFitness x ≥ fitness →
      ∀ extra, ∃ top, (Selection S I ga).population[0]? = some top ∧
        Fitness.Run S I E N P fitness (extra + 1) ga =
          some (RunState.Terminated (I.decode (I.getGenes top)) (Selection S I ga))) := by
  refine ⟨?_, ?_, ?_⟩
  · intro fuel v gaF h
    obtain ⟨m, gam, top, hlt, hspec, hF, htop, hge, hv, hbefore⟩ :=
      Fitness_Run_terminated S I E N P fitness fuel ga v gaF h
    exact ⟨⟨top, List.getElem?_mem htop, hv, hge⟩,
      m, gam, top, hlt, hspec, hF, htop, hge, hv, hbefore⟩
  · intro m gam top hspec htop hge hbefore extra
    exact Fitness_Run_stops S I E N P fitness m ga gam top hspec htop hge hbefore extra
  · intro x hx hge extra
    have hp := S.perm (fitnessGreater I) ga.population (fitnessGreater_strictWeakOrdering I)
    have hxs : x ∈ (Selection S I ga).population := hp.mem_iff.mpr hx
    cases hl : (Selection S I ga).population with
    | nil => rw [hl] at hxs; cases hxs
    | cons top rest =>
      have htop : (Selection S I ga).population[0]? = some top := by rw [hl]; simp
      have hmax := (Selection_top_max S I ga top htop).2 x hxs
      have h := Fitness_Run_stops S I E N P fitness 0 ga ga top rfl htop
        (le_trans hge hmax) (fun k hk => absurd hk (Nat.not_lt_zero k)) extra
      rw [Nat.zero_add] at h
      rw [← hl]
      exact ⟨top, htop, h⟩

/-- Witness of C6: the sample engine with threshold 20 returns at its third Selection. -/
theorem C6_Fitness_Run_stops_at_first_fit_witness :
    Fitness.Run insertionStdSort UIntIndividual.individual (scriptedEngine (fun _ => []))
        32 3 20 5 (sampleState [1, 7, 3] [16, 1, 4, 9, 0, 31]) =
      some (RunState.Terminated 2147483667 (sampleState [2147483667, 7, 1] [])) ∧
    ((∃ x ∈ (sampleState [2147483667, 7, 1] []).population,
        2147483667 = UIntIndividual.individual.decode (UIntIndividual.individual.getGenes x) ∧
        UIntIndividual.individual.getFitness x ≥ 20) ∧
      ∃ m gam top, m < 5 ∧
        specGenerations insertionStdSort UIntIndividual.individual
          (scriptedEngine (fun _ => [])) 32 3 m
          (sampleState [1, 7, 3] [16, 1, 4, 9, 0, 31]) = some gam ∧
        sampleState [2147483667, 7, 1] [] =
          Selection insertionStdSort UIntIndividual.individual gam ∧
        (sampleState [2147483667, 7, 1] []).population[0]? = some top ∧
        UIntIndividual.individual.getFitness top ≥ 20 ∧
        2147483667 = UIntIndividual.individual.decode (UIntIndividual.individual.getGenes top) ∧
        ∀ k, k < m → ∃ gak topk,
          specGenerations insertionStdSort UIntIndividual.individual
            (scriptedEngine (fun _ => [])) 32 3 k
            (sampleState [1, 7, 3] [16, 1, 4, 9, 0, 31]) = some gak ∧
          (Selection insertionStdSort UIntIndividual.individual gak).population[0]? =
            some topk ∧
          UIntIndividual.individual.getFitness topk < 20) :=
  ⟨by rfl,
    (C6_Fitness_Run_stops_at_first_fit insertionStdSort UIntIndividual.individual
      (scriptedEngine (fun _ => [])) 32 3 20
      (sampleState [1, 7, 3] [16, 1, 4, 9, 0, 31])).1 5 2147483667
      (sampleState [2147483667, 7, 1] []) (by rfl)⟩

/-! ## The value every strategy returns -/

theorem Generation_Run_best {T TIndividual σ : Type} (S : StdSort)
    (I : Individual T TIndividual) (E : TRandomEngine σ) (N P G : Nat)
    (ga gaF : GeneticAlgorithm TIndividual σ) (v : T)
    (h : Generation.Run S I E N P G ga = some (v, gaF)) : DecodesBest I v gaF := by
  unfold Generation.Run at h
  cases hl : Generation.runLoop S I E N P G G 0 ga with
  | none => simp [hl] at h
  | some ga1 =>
    simp only [hl] at h
    exact returnTop_Selection_best S I ga1 gaF v h

theorem Fitness_Run_best {T TIndividual σ : Type} (S : StdSort)
    (I : Individual T TIndividual) (E : TRandomEngine σ) (N P : Nat) (fitness : ℚ)
    (fuel : Nat) (ga gaF : GeneticAlgorithm TIndividual σ) (v : T)
    (h : Fitness.Run S I E N P fitness fuel ga = some (RunState.Terminated v gaF)) :
    DecodesBest I v gaF := by
  obtain ⟨m, gam, top, _, _, hF, htop, _, hv, _⟩ :=
    Fitness_Run_terminated S I E N P fitness fuel ga v gaF h
  subst hF
  obtain ⟨hmem, hmax⟩ := Selection_top_max S I gam top htop
  exact ⟨top, hmem, hv, hmax⟩

theorem Time_runLoop_best {T TIndividual σ : Type} (S : StdSort)
    (I : Individual T TIndividual) (E : TRandomEngine σ) (N P : Nat) (now : Nat → ℚ)
    (time start : ℚ) :
    ∀ (fuel k : Nat) (ga gaF : GeneticAlgorithm TIndividual σ) (v : T),
      Time.runLoop S I E N P now time start fuel k ga = some (RunState.Terminated v gaF) →
      DecodesBest I v gaF := by
  intro fuel
  induction fuel with
  | zero => intro k ga gaF v h; cases h
  | succ fuel ih =>
    intro k ga gaF v h
    unfold Time.runLoop at h
    simp only at h
    by_cases hge : now k - start ≥ time
    · simp only [hge, if_true] at h
      cases hr : returnTop I (Selection S I ga) with
      | none => simp [hr] at h
      | some r =>
        obtain ⟨v1, ga1⟩ := r
        simp only [hr, Option.some.injEq, RunState.Terminated.injEq] at h
        obtain ⟨hv, hg⟩ := h
        subst hv hg
        exact returnTop_Selection_best S I ga ga1 v1 hr
    · simp only [hge, if_false] at h
      cases hc : Crossover I E N P (Selection S I ga) with
      | none => simp [hc] at h
      | some ga1 =>
        cases hm : Mutation I E N P ga1 with
        | none => simp [hc, hm] at h
        | some ga2 =>
          simp only [hc, hm] at h
          exact ih (k + 1) ga2 gaF v h

/-- C7: under each of the three strategies, the value `Run` returns is the decoded gene
vector of an individual of the final population whose fitness is at least the fitness
of every individual of that population. -/
theorem C7_Run_returns_best {T TIndividual σ : Type} (S : StdSort)
    (I : Individual T TIndividual) (E : TRandomEngine σ) (N P : Nat)
    (ga gaF : GeneticAlgorithm TIndividual σ) (v : T) :
    (∀ G : Nat, Generation.Run S I E N P G ga = some (v, gaF) → DecodesBest I v gaF) ∧
    (∀ (fitness : ℚ) (fuel : Nat),
      Fitness.Run S I E N P fitness fuel ga = some (RunState.Terminated v gaF) →
      DecodesBest I v gaF) ∧
    (∀ (now : Nat → ℚ) (time : ℚ) (fuel : Nat),
      Time.Run S I E N P now time fuel ga = some (RunState.Terminated v gaF) →
      DecodesBest I v gaF) :=
  ⟨fun G h => Generation_Run_best S I E N P G ga gaF v h,
    fun fitness fuel h => Fitness_Run_best S I E N P fitness fuel ga gaF v h,
    fun now time fuel h => Time_runLoop_best S I E N P now time (now 0) fuel 1 ga gaF v h⟩

/-- Witness of C7: the three strategies on the sample engine, each returning. -/
theorem C7_Run_returns_best_witness :
    (Generation.Run insertionStdSort UIntIndividual.individual (scriptedEngine (fun _ => []))
        32 3 2 (sampleState [1, 7, 3] [16, 1, 4, 9, 0, 31]) =
      some (2147483667, sampleState [2147483667, 7, 1] []) ∧
      DecodesBest UIntIndividual.individual 2147483667 (sampleState [2147483667, 7, 1] [])) ∧
    (Fitness.Run insertionStdSort UIntIndividual.individual (scriptedEngine (fun _ => []))
        32 3 5 2 (sampleState [1, 7, 3] [16, 1, 4, 9, 0, 31]) =
      some (RunState.Terminated 7 (sampleState [7, 3, 1] [16, 1, 4, 9, 0, 31])) ∧
      DecodesBest UIntIndividual.individual 7 (sampleState [7, 3, 1] [16, 1, 4, 9, 0, 31])) ∧
    (Time.Run insertionStdSort UIntIndividual.individual (scriptedEngine (fun _ => []))
        32 3 (fun k => (k : ℚ)) 2 5 (sampleState [1, 7, 3] [16, 1, 4, 9, 0, 31]) =
      some (RunState.Terminated 19 (sampleState [19, 7, 1] [9, 0, 31])) ∧
      DecodesBest UIntIndividual.individual 19 (sampleState [19, 7, 1] [9, 0, 31])) :=
  ⟨⟨by rfl, (C7_Run_returns_best insertionStdSort UIntIndividual.individual
      (scriptedEngine (fun _ => [])) 32 3 (sampleState [1, 7, 3] [16, 1, 4, 9, 0, 31])
      (sampleState [2147483667, 7, 1] []) 2147483667).1 2 (by rfl)⟩,
    ⟨by rfl, (C7_Run_returns_best insertionStdSort UIntIndividual.individual
      (scriptedEngine (fun _ => [])) 32 3 (sampleState [1, 7, 3] [16, 1, 4, 9, 0, 31])
      (sampleState [7, 3, 1] [16, 1, 4, 9, 0, 31]) 7).2.1 5 2 (by rfl)⟩,
    ⟨by decide!, (C7_Run_returns_best insertionStdSort UIntIndividual.individual
      (scriptedEngine (fun _ => [])) 32 3 (sampleState [1, 7, 3] [16, 1, 4, 9, 0, 31])
      (sampleState [19, 7, 1] [9, 0, 31]) 19).2.2 (fun k => (k : ℚ)) 2 5 (by decide!)⟩⟩

end HsBa.GA

/-! ## The sample individual -/

namespace UIntIndividual

theorem to_ulong_testBits (n : Nat) :
    ∀ x : Nat, to_ulong ((List.range n).map (fun j => x.testBit j)) = x % 2 ^ n := by
  induction n with
  | zero => intro x; simp [to_ulong, Nat.mod_one]
  | succ n ih =>
    intro x
    have hbit : (x.testBit 0).toNat = x % 2 := by
      rw [Nat.testBit_zero]
      rcases Nat.mod_two_eq_zero_or_one x with h | h <;> simp [h]
    rw [List.range_succ_eq_map, List.map_cons, List.map_map, to_ulong]
    have hshift : ((fun j => x.testBit j) ∘ Nat.succ) = fun j => (x / 2).testBit j := by
      funext j
      simp [Function.comp, Nat.testBit_succ]
    rw [hshift, ih (x / 2), hbit, Nat.pow_succ', Nat.mod_mul]

/-- C8: for the sample `UIntIndividual` (`N = 32`), `decode(encode(x)) == x` for every
32-bit unsigned integer `x`. -/
theorem C8_UIntIndividual_roundtrip (x : Nat) (hx : x < 2 ^ 32) :
    individual.decode (individual.encode x) = x := by
  show to_ulong ((List.range 32).map (fun j => x.testBit j)) % 2 ^ 32 = x
  rw [to_ulong_testBits 32 x, Nat.mod_mod, Nat.mod_eq_of_lt hx]

/-- Witness of C8 at the largest 32-bit value. -/
theorem C8_UIntIndividual_roundtrip_witness :
    4294967295 < 2 ^ 32 ∧ individual.decode (individual.encode 4294967295) = 4294967295 :=
  ⟨by decide, C8_UIntIndividual_roundtrip 4294967295 (by decide)⟩

end UIntIndividual

/-! ## Initialisation -/

namespace HsBa.GA

theorem take_succ_set {α : Type} (l : List α) (i : Nat) (b : α) (h : i < l.length) :
    (l.set i b).take (i + 1) = l.take i ++ [b] := by
  induction l generalizing i with
  | nil => cases h
  | cons a l ih =>
    cases i with
    | zero => simp
    | succ i =>
      have h1 : i < l.length := by simpa using h
      simp [ih i h1]

theorem randomGenesLoop_eq {σ : Type} (E : TRandomEngine σ) (N : Nat) :
    ∀ (fuel i : Nat) (genes : List Bool) (s : σ), genes.length = N → i + fuel = N →
      randomGenesLoop E N fuel i genes s =
        some (genes.take i ++ (drawnBits E fuel s).1, (drawnBits E fuel s).2) := by
  intro fuel
  induction fuel with
  | zero =>
    intro i genes s hl hi
    have : i = genes.length := by omega
    subst this
    simp [randomGenesLoop, drawnBits]
  | succ fuel ih =>
    intro i genes s hl hi
    have hlt : i < N := by omega
    have a1 := assignAt_eq_some genes i (decide ((E.uniform 0 1 s).1 ≠ 0)) (by omega)
    have h := ih (i + 1) (genes.set i (decide ((E.uniform 0 1 s).1 ≠ 0))) (E.uniform 0 1 s).2
      (by simp [hl]) (by omega)
    rw [take_succ_set genes i _ (by omega)] at h
    simp only [randomGenesLoop, hlt, if_true, a1, h, drawnBits, List.append_assoc,
      List.singleton_append]

theorem randomPopulationLoop_eq {T TIndividual σ : Type} (I : Individual T TIndividual)
    (E : TRandomEngine σ) (N : Nat) :
    ∀ (population : List TIndividual) (s : σ),
      randomPopulationLoop I E N population s =
        some (drawnPopulation I E N population.length s) := by
  intro population
  induction population with
  | nil => intro s; rfl
  | cons a rest ih =>
    intro s
    have hg := randomGenesLoop_eq E N N 0 (List.replicate N false) s (by simp) (by omega)
    simp only [List.take_zero, List.nil_append] at hg
    simp only [randomPopulationLoop, hg, ih, List.length_cons, drawnPopulation]

theorem drawnPopulation_length {T TIndividual σ : Type} (I : Individual T TIndividual)
    (E : TRandomEngine σ) (N : Nat) :
    ∀ (P : Nat) (s : σ), (drawnPopulation I E N P s).1.length = P := by
  intro P
  induction P with
  | zero => intro s; rfl
  | succ P ih => intro s; simp [drawnPopulation, ih]

/-- C9, amended: in the generation-bound variant `InitializePopulation()` leaves every
individual with zero-filled genes, whatever the entropy source yields; in the
fitness-bound and time-bound variants it seeds the engine with the entropy value and
constructs every individual from the next `N` bits drawn from that engine. -/
theorem C9_InitializePopulation_noarg {T TIndividual σ : Type}
    (I : Individual T TIndividual) (E : TRandomEngine σ) (N : Nat) (rd : Nat)
    (ga : GeneticAlgorithm TIndividual σ) :
    (I.StoresGenes → ∀ x ∈ (Generation.InitializePopulation I E N rd ga).population,
      I.getGenes x = List.replicate N false) ∧
    Fitness.InitializePopulation I E N rd ga =
      some { population := (drawnPopulation I E N ga.population.length (E.seed rd)).1,
             randomEngine := (drawnPopulation I E N ga.population.length (E.seed rd)).2 } ∧
    Time.InitializePopulation I E N rd ga =
      some { population := (drawnPopulation I E N ga.population.length (E.seed rd)).1,
             randomEngine := (drawnPopulation I E N ga.population.length (E.seed rd)).2 } := by
  refine ⟨?_, ?_, ?_⟩
  · intro hs x hx
    simp only [Generation.InitializePopulation, fixedPopulationLoop, List.mem_map] at hx
    obtain ⟨_, _, hx⟩ := hx
    rw [← hx, hs]
  · simp only [Fitness.InitializePopulation, randomPopulationLoop_eq]
  · simp only [Time.InitializePopulation, randomPopulationLoop_eq]

/-- Witness of C9, amended: the generation-bound variant on three sample individuals. -/
theorem C9_InitializePopulation_noarg_witness :
    UIntIndividual.individual.StoresGenes ∧
    ∀ x ∈ (Generation.InitializePopulation UIntIndividual.individual
        (scriptedEngine (fun w => List.replicate 96 w)) 32 1
        (sampleState [1, 7, 3] [])).population,
      UIntIndividual.individual.getGenes x = List.replicate 32 false :=
  ⟨fun _ => rfl, (C9_InitializePopulation_noarg UIntIndividual.individual
    (scriptedEngine (fun w => List.replicate 96 w)) 32 1 (sampleState [1, 7, 3] [])).1
    (fun _ => rfl)⟩

/-- C9 fails as stated: with an engine whose draws are all 1 after seeding with the
entropy value 1, the argument-less `InitializePopulation()` of the fitness-bound and of
the time-bound variant leaves an individual whose 32 bits are all 1. -/
theorem C9_InitializePopulation_not_zero_filled :
    (∃ ga1 x, Fitness.InitializePopulation UIntIndividual.individual
        (scriptedEngine (fun w => List.replicate 32 w)) 32 1
        (GeneticAlgorithm.construct UIntIndividual.individual
          (scriptedEngine (fun w => List.replicate 32 w)) 1) = some ga1 ∧
      x ∈ ga1.population ∧
      UIntIndividual.individual.getGenes x = List.replicate 32 true ∧
      UIntIndividual.individual.getGenes x ≠ List.replicate 32 false) ∧
    (∃ ga1 x, Time.InitializePopulation UIntIndividual.individual
        (scriptedEngine (fun w => List.replicate 32 w)) 32 1
        (GeneticAlgorithm.construct UIntIndividual.individual
          (scriptedEngine (fun w => List.replicate 32 w)) 1) = some ga1 ∧
      x ∈ ga1.population ∧
      UIntIndividual.individual.getGenes x = List.replicate 32 true ∧
      UIntIndividual.individual.getGenes x ≠ List.replicate 32 false) :=
  ⟨⟨{ population := [{ genes := List.replicate 32 true }], randomEngine := [] },
      { genes := List.replicate 32 true }, by decide, by decide, by decide, by decide⟩,
    ⟨{ population := [{ genes := List.replicate 32 true }], randomEngine := [] },
      { genes := List.replicate 32 true }, by decide, by decide, by decide, by decide⟩⟩

/-- C10, amended: no configuration is rejected. For every `P` and `N`, `P < 2` and
`N = 0` included, each of the four initialisation modes (the argument-less one in each
of its variants) completes on a freshly constructed engine and leaves a population of
exactly `P` individuals. -/
theorem C10_InitializePopulation_never_rejects {T TIndividual σ : Type}
    (I : Individual T TIndividual) (E : TRandomEngine σ) (N P : Nat) (rd seed : Nat)
    (genes : List Bool) :
    (Generation.InitializePopulation I E N rd
      (GeneticAlgorithm.construct I E P)).population.length = P ∧
    (∃ ga1, Fitness.InitializePopulation I E N rd (GeneticAlgorithm.construct I E P) =
      some ga1 ∧ ga1.population.length = P) ∧
    (∃ ga1, Time.InitializePopulation I E N rd (GeneticAlgorithm.construct I E P) =
      some ga1 ∧ ga1.population.length = P) ∧
    (∃ ga1, InitializePopulationSeed I E N seed (GeneticAlgorithm.construct I E P) =
      some ga1 ∧ ga1.population.length = P) ∧
    (InitializePopulationGenes I E rd genes
      (GeneticAlgorithm.construct I E P)).population.length = P ∧
    (InitializePopulationGenesSeed I E genes seed
      (GeneticAlgorithm.construct I E P)).population.length = P := by
  have hlen : (GeneticAlgorithm.construct I E P).population.length = P := by
    simp [GeneticAlgorithm.construct]
  have h1 : Fitness.InitializePopulation I E N rd (GeneticAlgorithm.construct I E P) =
      some { population := (drawnPopulation I E N P (E.seed rd)).1,
             randomEngine := (drawnPopulation I E N P (E.seed rd)).2 } := by
    simp only [Fitness.InitializePopulation, randomPopulationLoop_eq, hlen]
  have h2 : Time.InitializePopulation I E N rd (GeneticAlgorithm.construct I E P) =
      some { population := (drawnPopulation I E N P (E.seed rd)).1,
             randomEngine := (drawnPopulation I E N P (E.seed rd)).2 } := by
    simp only [Time.InitializePopulation, randomPopulationLoop_eq, hlen]
  have h3 : InitializePopulationSeed I E N seed (GeneticAlgorithm.construct I E P) =
      some { population := (drawnPopulation I E N P (E.seed seed)).1,
             randomEngine := (drawnPopulation I E N P (E.seed seed)).2 } := by
    simp only [InitializePopulationSeed, randomPopulationLoop_eq, hlen]
  refine ⟨?_, ⟨_, h1, drawnPopulation_length I E N P _⟩,
    ⟨_, h2, drawnPopulation_length I E N P _⟩,
    ⟨_, h3, drawnPopulation_length I E N P _⟩, ?_, ?_⟩
  · simp [Generation.InitializePopulation, fixedPopulationLoop, hlen]
  · simp [InitializePopulationGenes, fixedPopulationLoop, hlen]
  · simp [InitializePopulationGenesSeed, fixedPopulationLoop, hlen]

/-- C10 fails as stated: with `P = 1` every initialisation mode of the sample engine
produces a one-individual population instead of an error, and the first generation of a
run on it is undefined, Crossover reading position 1 of that population. -/
theorem C10_one_individual_accepted :
    decodedValues (Generation.InitializePopulation UIntIndividual.individual
      (scriptedEngine (fun w => List.replicate 32 w)) 32 1
      (GeneticAlgorithm.construct UIntIndividual.individual
        (scriptedEngine (fun w => List.replicate 32 w)) 1)).population = [0] ∧
    (InitializePopulationSeed UIntIndividual.individual
      (scriptedEngine (fun w => List.replicate 32 w)) 32 1
      (GeneticAlgorithm.construct UIntIndividual.individual
        (scriptedEngine (fun w => List.replicate 32 w)) 1)).map
        (fun ga => decodedValues ga.population) = some [4294967295] ∧
    decodedValues (InitializePopulationGenes UIntIndividual.individual
      (scriptedEngine (fun w => List.replicate 32 w)) 1 (UIntIndividual.encode 5)
      (GeneticAlgorithm.construct UIntIndividual.individual
        (scriptedEngine (fun w => List.replicate 32 w)) 1)).population = [5] ∧
    decodedValues (InitializePopulationGenesSeed UIntIndividual.individual
      (scriptedEngine (fun w => List.replicate 32 w)) (UIntIndividual.encode 5) 1
      (GeneticAlgorithm.construct UIntIndividual.individual
        (scriptedEngine (fun w => List.replicate 32 w)) 1)).population = [5] ∧
    Crossover UIntIndividual.individual (scriptedEngine (fun w => List.replicate 32 w)) 32 1
      (Selection insertionStdSort UIntIndividual.individual
        (Generation.InitializePopulation UIntIndividual.individual
          (scriptedEngine (fun w => List.replicate 32 w)) 32 1
          (GeneticAlgorithm.construct UIntIndividual.individual
            (scriptedEngine (fun w => List.replicate 32 w)) 1))) = none ∧
    Generation.Run insertionStdSort UIntIndividual.individual
      (scriptedEngine (fun w => List.replicate 32 w)) 32 1 1
      (Generation.InitializePopulation UIntIndividual.individual
        (scriptedEngine (fun w => List.replicate 32 w)) 32 1
        (GeneticAlgorithm.construct UIntIndividual.individual
          (scriptedEngine (fun w => List.replicate 32 w)) 1)) = none := by
  refine ⟨by decide, by decide, by decide, by decide, by decide, by decide⟩

/-! ## Selection only reorders -/

/-- C11: Selection only reorders. The population after Selection is a permutation of
the population before it (the same individuals with the same multiplicities, none
created, dropped or changed), and the random engine is untouched. -/
theorem C11_Selection_permutation {T TIndividual σ : Type} (S : StdSort)
    (I : Individual T TIndividual) (ga : GeneticAlgorithm TIndividual σ) :
    (Selection S I ga).population.Perm ga.population ∧
      (Selection S I ga).population.length = ga.population.length ∧
      (∀ x, x ∈ (Selection S I ga).population ↔ x ∈ ga.population) ∧
      (Selection S I ga).randomEngine = ga.randomEngine := by
  have hp : (Selection S I ga).population.Perm ga.population :=
    S.perm (fitnessGreater I) ga.population (fitnessGreater_strictWeakOrdering I)
  exact ⟨hp, hp.length_eq, fun x => hp.mem_iff, rfl⟩

theorem map_eq_of_injOn {α β : Type} (f : α → β) :
    ∀ (l1 l2 : List α), (∀ x ∈ l1, ∀ y ∈ l2, f x = f y → x = y) →
      l1.map f = l2.map f → l1 = l2 := by
  intro l1
  induction l1 with
  | nil =>
    intro l2 _ h
    cases l2 with
    | nil => rfl
    | cons b l2 => cases h
  | cons a l1 ih =>
    intro l2 hinj h
    cases l2 with
    | nil => cases h
    | cons b l2 =>
      simp only [List.map_cons, List.cons.injEq] at h
      have hab : a = b := hinj a (List.mem_cons_self _ _) b (List.mem_cons_self _ _) h.1
      have hrest := ih l2 (fun x hx y hy => hinj x (List.mem_cons_of_mem _ hx) y
        (List.mem_cons_of_mem _ hy)) h.2
      rw [hab, hrest]

theorem Selection_fitness_sorted {T TIndividual σ : Type} (S : StdSort)
    (I : Individual T TIndividual) (ga : GeneticAlgorithm TIndividual σ) :
    ((Selection S I ga).population.map I.getFitness).Sorted (fun a b => a ≥ b) := by
  have h := Selection_pairwise S I ga
  exact List.pairwise_map.mpr h

/-- C12, amended: Selection is idempotent up to the order of equal-fitness individuals.
Applying it twice gives the same sequence of fitness values and the same multiset of
individuals as applying it once, and leaves the engine alone; when no two distinct
individuals of the population have equal fitness, it gives the same order of
individuals. -/
theorem C12_Selection_idempotent_up_to_ties {T TIndividual σ : Type} (S : StdSort)
    (I : Individual T TIndividual) (ga : GeneticAlgorithm TIndividual σ) :
    (Selection S I (Selection S I ga)).population.map I.getFitness =
        (Selection S I ga).population.map I.getFitness ∧
      (Selection S I (Selection S I ga)).population.Perm (Selection S I ga).population ∧
      (Selection S I (Selection S I ga)).randomEngine = (Selection S I ga).randomEngine ∧
      ((∀ x ∈ ga.population, ∀ y ∈ ga.population, I.getFitness x = I.getFitness y → x = y) →
        Selection S I (Selection S I ga) = Selection S I ga) := by
  have hp2 : (Selection S I (Selection S I ga)).population.Perm (Selection S I ga).population :=
    S.perm (fitnessGreater I) _ (fitnessGreater_strictWeakOrdering I)
  have hp1 : (Selection S I ga).population.Perm ga.population :=
    S.perm (fitnessGreater I) _ (fitnessGreater_strictWeakOrdering I)
  have hmap : (Selection S I (Selection S I ga)).population.map I.getFitness =
      (Selection S I ga).population.map I.getFitness :=
    List.eq_of_perm_of_sorted (hp2.map I.getFitness)
      (Selection_fitness_sorted S I (Selection S I ga)) (Selection_fitness_sorted S I ga)
  refine ⟨hmap, hp2, rfl, ?_⟩
  intro hinj
  have hpop : (Selection S I (Selection S I ga)).population = (Selection S I ga).population := by
    apply map_eq_of_injOn I.getFitness _ _ _ hmap
    intro x hx y hy hxy
    exact hinj x (hp1.mem_iff.mp (hp2.mem_iff.mp hx)) y (hp1.mem_iff.mp hy) hxy
  show ({ population := (Selection S I (Selection S I ga)).population,
          randomEngine := ga.randomEngine } : GeneticAlgorithm TIndividual σ) =
    { population := (Selection S I ga).population, randomEngine := ga.randomEngine }
  rw [hpop]

/-- Witness of C12, amended: three sample individuals of distinct fitness. -/
theorem C12_Selection_idempotent_up_to_ties_witness :
    (∀ x ∈ (sampleState [1, 7, 3] []).population, ∀ y ∈ (sampleState [1, 7, 3] []).population,
      UIntIndividual.individual.getFitness x = UIntIndividual.individual.getFitness y →
        x = y) ∧
    Selection insertionStdSort UIntIndividual.individual
        (Selection insertionStdSort UIntIndividual.individual (sampleState [1, 7, 3] [])) =
      Selection insertionStdSort UIntIndividual.individual (sampleState [1, 7, 3] []) :=
  ⟨by decide, (C12_Selection_idempotent_up_to_ties insertionStdSort UIntIndividual.individual
    (sampleState [1, 7, 3] [])).2.2.2 (by decide)⟩

/-- C12 fails as stated: with the `std::sort` of libstdc++ and twenty individuals of equal
fitness and pairwise different genes, the first Selection leaves the order
10, 19, 18, ..., 11, 0, 9, 8, ..., 1 of the initial positions (the median-of-three swap
followed by one partition pass, as a direct run of the library routine on the population
shows), and the second Selection restores the initial order 0, 1, ..., 19, which is not
the order the first one left. -/
theorem C12_Selection_twice_reorders_twenty_ties :
    (∀ x ∈ oneBitIndividuals (List.range 20), (bitCountIndividual 20).getFitness x = 1) ∧
    Libstdcxx.sort (fitnessGreater (bitCountIndividual 20)) (oneBitIndividuals (List.range 20)) =
      some (oneBitIndividuals
        [10, 19, 18, 17, 16, 15, 14, 13, 12, 11, 0, 9, 8, 7, 6, 5, 4, 3, 2, 1]) ∧
    (Selection libstdcxxStdSort (bitCountIndividual 20)
        ({ population := oneBitIndividuals (List.range 20), randomEngine := [] } :
          GeneticAlgorithm (List Bool) (List Nat))).population =
      oneBitIndividuals [10, 19, 18, 17, 16, 15, 14, 13, 12, 11, 0, 9, 8, 7, 6, 5, 4, 3, 2, 1] ∧
    (Selection libstdcxxStdSort (bitCountIndividual 20)
        (Selection libstdcxxStdSort (bitCountIndividual 20)
          ({ population := oneBitIndividuals (List.range 20), randomEngine := [] } :
            GeneticAlgorithm (List Bool) (List Nat)))).population =
      oneBitIndividuals (List.range 20) ∧
    Selection libstdcxxStdSort (bitCountIndividual 20)
        (Selection libstdcxxStdSort (bitCountIndividual 20)
          ({ population := oneBitIndividuals (List.range 20), randomEngine := [] } :
            GeneticAlgorithm (List Bool) (List Nat))) ≠
      Selection libstdcxxStdSort (bitCountIndividual 20)
        ({ population := oneBitIndividuals (List.range 20), randomEngine := [] } :
          GeneticAlgorithm (List Bool) (List Nat)) := by
  refine ⟨by decide, by decide, by decide, by decide, by decide⟩

/-! ## An unreachable threshold -/

theorem specGeneration_parts {T TIndividual σ : Type} (S : StdSort)
    (I : Individual T TIndividual) (E : TRandomEngine σ) (N P : Nat)
    (ga ga3 : GeneticAlgorithm TIndividual σ)
    (h : specGeneration S I E N P ga = some ga3) :
    ∃ ga2, Crossover I E N P (Selection S I ga) = some ga2 ∧
      Mutation I E N P ga2 = some ga3 := by
  rw [specGeneration] at h
  cases hc : Crossover I E N P (Selection S I ga) with
  | none => rw [hc] at h; cases h
  | some ga2 => rw [hc] at h; exact ⟨ga2, rfl, h⟩

theorem Fitness_Run_running {T TIndividual σ : Type} (S : StdSort)
    (I : Individual T TIndividual) (E : TRandomEngine σ) (N P : Nat) (fitness : ℚ)
    (hs : I.StoresGenes) (hE : E.InRange)
    (hP : 2 ≤ P) (hP2 : P ≤ SIZE_MAX) (hN : 1 ≤ N) (hN2 : N ≤ SIZE_MAX)
    (hlow : ∀ x : TIndividual, (I.getGenes x).length = N → I.getFitness x < fitness) :
    ∀ (k : Nat) (ga : GeneticAlgorithm TIndividual σ), WellFormed I N P ga →
      ∃ gak, specGenerations S I E N P k ga = some gak ∧ WellFormed I N P gak ∧
        Fitness.Run S I E N P fitness k ga = some (RunState.Running gak) := by
  intro k
  induction k with
  | zero => intro ga hw; exact ⟨ga, rfl, hw, rfl⟩
  | succ k ih =>
    intro ga hw
    have hsel := Selection_wellFormed S I N P ga hw
    obtain ⟨top, htop⟩ := top_defined I N P _ hsel (by omega)
    have hlt : ¬ I.getFitness top ≥ fitness :=
      not_le.mpr (hlow top (hsel.2 top (List.getElem?_mem htop)))
    obtain ⟨ga3, hgen, hw3⟩ := specGeneration_defined S I E N P ga hw hs hE hP hP2 hN hN2
    obtain ⟨ga2, hc, hm⟩ := specGeneration_parts S I E N P ga ga3 hgen
    obtain ⟨gak, hspec, hwk, hrun⟩ := ih ga3 hw3
    refine ⟨gak, ?_, hwk, ?_⟩
    · rw [specGenerations, hgen]; exact hspec
    · rw [Fitness.Run]
      simp only [htop, hlt, if_false, hc, hm]
      exact hrun

/-- C13: if every individual with `N`-bit genes has fitness strictly below the
threshold, then from every well-formed population (`P >= 2`, `N >= 1`) and for every
in-range sequence of draws, the fitness-bound `Run(threshold)` is still running after
`k` iterations for every `k`: the state it has reached is the one after `k` full
generations, and the stop test of the Selection that follows fails as well. -/
theorem C13_Fitness_Run_never_terminates {T TIndividual σ : Type} (S : StdSort)
    (I : Individual T TIndividual) (E : TRandomEngine σ) (N P : Nat) (fitness : ℚ)
    (ga : GeneticAlgorithm TIndividual σ)
    (hw : WellFormed I N P ga) (hs : I.StoresGenes) (hE : E.InRange)
    (hP : 2 ≤ P) (hP2 : P ≤ SIZE_MAX) (hN : 1 ≤ N) (hN2 : N ≤ SIZE_MAX)
    (hlow : ∀ x : TIndividual, (I.getGenes x).length = N → I.getFitness x < fitness)
    (k : Nat) :
    ∃ gak topk, Fitness.Run S I E N P fitness k ga = some (RunState.Running gak) ∧
      specGenerations S I E N P k ga = some gak ∧
      (Selection S I gak).population[0]? = some topk ∧ I.getFitness topk < fitness := by
  obtain ⟨gak, hspec, hwk, hrun⟩ :=
    Fitness_Run_running S I E N P fitness hs hE hP hP2 hN hN2 hlow k ga hw
  have hsel := Selection_wellFormed S I N P gak hwk
  obtain ⟨topk, htop⟩ := top_defined I N P _ hsel (by omega)
  exact ⟨gak, topk, hrun, hspec, htop, hlow topk (hsel.2 topk (List.getElem?_mem htop))⟩

theorem UIntIndividual_fitness_lt (x : UIntIndividual) :
    UIntIndividual.individual.getFitness x < 4294967296 := by
  show ((UIntIndividual.to_ulong x.genes % 2 ^ 32 : Nat) : ℚ) < 4294967296
  have h : UIntIndividual.to_ulong x.genes % 2 ^ 32 < 4294967296 :=
    Nat.mod_lt _ (by norm_num)
  exact_mod_cast h

/-- Witness of C13: the sample engine with the threshold 4294967296, which no 32-bit
value reaches, after two iterations. -/
theorem C13_Fitness_Run_never_terminates_witness :
    WellFormed UIntIndividual.individual 32 3 (sampleState [1, 7, 3] [16, 1, 4, 9, 0, 31]) ∧
    UIntIndividual.individual.StoresGenes ∧ (scriptedEngine (fun _ => [])).InRange ∧
    2 ≤ 3 ∧ 3 ≤ SIZE_MAX ∧ 1 ≤ 32 ∧ 32 ≤ SIZE_MAX ∧
    (∀ x : UIntIndividual, (UIntIndividual.individual.getGenes x).length = 32 →
      UIntIndividual.individual.getFitness x < 4294967296) ∧
    ∃ gak topk,
      Fitness.Run insertionStdSort UIntIndividual.individual (scriptedEngine (fun _ => []))
        32 3 4294967296 2 (sampleState [1, 7, 3] [16, 1, 4, 9, 0, 31]) =
          some (RunState.Running gak) ∧
      specGenerations insertionStdSort UIntIndividual.individual
        (scriptedEngine (fun _ => [])) 32 3 2
        (sampleState [1, 7, 3] [16, 1, 4, 9, 0, 31]) = some gak ∧
      (Selection insertionStdSort UIntIndividual.individual gak).population[0]? =
        some topk ∧
      UIntIndividual.individual.getFitness topk < 4294967296 :=
  ⟨⟨by decide, by decide⟩, fun _ => rfl, scriptedEngine_inRange _, by decide, by decide,
    by decide, by decide, fun x _ => UIntIndividual_fitness_lt x,
    C13_Fitness_Run_never_terminates insertionStdSort UIntIndividual.individual
      (scriptedEngine (fun _ => [])) 32 3 4294967296
      (sampleState [1, 7, 3] [16, 1, 4, 9, 0, 31]) ⟨by decide, by decide⟩ (fun _ => rfl)
      (scriptedEngine_inRange _) (by decide) (by decide) (by decide) (by decide)
      (fun x _ => UIntIndividual_fitness_lt x) 2⟩

/-! ## Reaching the optimum of the sample -/

theorem onesBelow_bit : ∀ k, k < 32 → (onesBelow k)[k]? = some false := by
  decide

theorem onesBelow_set : ∀ k, k < 32 → (onesBelow k).set k true = onesBelow (k + 1) := by
  decide

theorem onesBelow_decode : ∀ k, k < 33 → UIntIndividual.decode (onesBelow k) = 2 ^ k - 1 := by
  decide

theorem onesBelow_length : ∀ k, k < 33 → (onesBelow k).length = 32 := by
  decide

theorem onesBelow_fitness (k : Nat) (hk : k < 33) :
    UIntIndividual.individual.getFitness { genes := onesBelow k } = ((2 ^ k - 1 : Nat) : ℚ) := by
  show ((UIntIndividual.decode (onesBelow k) : Nat) : ℚ) = ((2 ^ k - 1 : Nat) : ℚ)
  rw [onesBelow_decode k hk]

theorem Selection_climb {σ : Type} (S : StdSort) (P k : Nat) (hk : k < 33)
    (ga : GeneticAlgorithm UIntIndividual σ)
    (hpop : ga.population.Perm
      ({ genes := onesBelow k } :: List.replicate (P - 1) { genes := onesBelow 0 })) :
    (Selection S UIntIndividual.individual ga).population =
      { genes := onesBelow k } :: List.replicate (P - 1) { genes := onesBelow 0 } := by
  have hp : (Selection S UIntIndividual.individual ga).population.Perm
      ({ genes := onesBelow k } :: List.replicate (P - 1) { genes := onesBelow 0 }) :=
    (S.perm (fitnessGreater UIntIndividual.individual) ga.population
      (fitnessGreater_strictWeakOrdering _)).trans hpop
  cases hl : (Selection S UIntIndividual.individual ga).population with
  | nil =>
    rw [hl] at hp
    have := hp.length_eq
    simp at this
  | cons top rest =>
    have htop : (Selection S UIntIndividual.individual ga).population[0]? = some top := by
      rw [hl]; simp
    obtain ⟨hmem, hmax⟩ := Selection_top_max S UIntIndividual.individual ga top htop
    have hk_mem : ({ genes := onesBelow k } : UIntIndividual) ∈
        (Selection S UIntIndividual.individual ga).population :=
      hp.mem_iff.mpr (List.mem_cons_self _ _)
    have hle := hmax _ hk_mem
    have htop_eq : top = { genes := onesBelow k } := by
      rcases List.mem_cons.mp (hp.mem_iff.mp hmem) with h | h
      · exact h
      · have hz : top = { genes := onesBelow 0 } := List.eq_of_mem_replicate h
        rw [hz, onesBelow_fitness k hk, onesBelow_fitness 0 (by omega)] at hle
        have hle2 : 2 ^ k - 1 ≤ 2 ^ 0 - 1 := by exact_mod_cast hle
        have hpow : 2 ^ k ≤ 1 := by
          have := Nat.one_le_two_pow (n := k)
          simp at hle2
          omega
        have hk0 : k = 0 := by
          cases k with
          | zero => rfl
          | succ k =>
            have : 2 ≤ 2 ^ (k + 1) := by
              have := Nat.one_le_two_pow (n := k)
              rw [Nat.pow_succ]; omega
            omega
        rw [hz, hk0]
    rw [hl, htop_eq] at hp
    have hrest := List.perm_replicate.mp hp.cons_inv
    rw [htop_eq, hrest]

theorem subOne_32 : subOne 32 = 31 := by decide

theorem climb_step (S : StdSort) (P k : Nat) (hP : 2 ≤ P) (hk : k < 32)
    (script : Nat → List Nat) (rest : List Nat)
    (ga : GeneticAlgorithm UIntIndividual (List Nat))
    (hpop : ga.population.Perm
      ({ genes := onesBelow k } :: List.replicate (P - 1) { genes := onesBelow 0 }))
    (hrng : ga.randomEngine = 0 :: 0 :: k :: rest) :
    specGeneration S UIntIndividual.individual (scriptedEngine script) 32 P ga =
      some { population :=
               { genes := onesBelow (k + 1) } :: List.replicate (P - 1) { genes := onesBelow 0 },
             randomEngine := rest } := by
  have hsel := Selection_climb S P k (by omega) ga hpop
  have hw : WellFormed UIntIndividual.individual 32 P
      (Selection S UIntIndividual.individual ga) := by
    refine ⟨?_, ?_⟩
    · rw [hsel]; simp; omega
    · intro x hx
      rw [hsel] at hx
      rcases List.mem_cons.mp hx with h | h
      · rw [h]; exact onesBelow_length k (by omega)
      · rw [List.eq_of_mem_replicate h]; exact onesBelow_length 0 (by omega)
  have hc := Crossover_defined UIntIndividual.individual (scriptedEngine script) 32 P _ hw hP
  have hrng1 : (Selection S UIntIndividual.individual ga).randomEngine = 0 :: 0 :: k :: rest :=
    hrng
  have hmod : k % (31 - 0 + 1) = k := Nat.mod_eq_of_lt (by omega)
  obtain ⟨x, bit, hx, hb, hm⟩ := Mutation_spec UIntIndividual.individual
    (scriptedEngine script) 32 P
    { Selection S UIntIndividual.individual ga with
      randomEngine := ((scriptedEngine script).uniform 0 (subOne 32)
        (Selection S UIntIndividual.individual ga).randomEngine).2 } 0 k hw
    (by rw [hrng1]; simp [scriptedEngine])
    (by rw [hrng1, subOne_32]; simp [scriptedEngine, hmod])
    (by omega) hk
  have hx0 : x = { genes := onesBelow k } := by
    have hx1 : (Selection S UIntIndividual.individual ga).population[0]? = some x := hx
    rw [hsel] at hx1
    simpa using hx1.symm
  subst hx0
  have hbit : bit = false := by
    have hb1 : (onesBelow k)[k]? = some bit := hb
    rw [onesBelow_bit k hk] at hb1
    simpa using hb1.symm
  subst hbit
  rw [specGeneration, hc]
  simp only [Option.some_bind]
  rw [hm]
  have hset : (UIntIndividual.individual.getGenes { genes := onesBelow k }).set k (!false) =
      onesBelow (k + 1) := onesBelow_set k hk
  rw [hset]
  have hpop1 : (Selection S UIntIndividual.individual ga).population.set 0
      (UIntIndividual.individual.construct (onesBelow (k + 1))) =
      { genes := onesBelow (k + 1) } :: List.replicate (P - 1) { genes := onesBelow 0 } := by
    rw [hsel]; rfl
  simp only [hpop1, hrng1, subOne_32]
  rfl

theorem climb_run (S : StdSort) (P : Nat) (hP : 2 ≤ P) (script : Nat → List Nat) :
    ∀ (n k : Nat) (ga : GeneticAlgorithm UIntIndividual (List Nat)), k + n = 32 →
      ga.population.Perm
        ({ genes := onesBelow k } :: List.replicate (P - 1) { genes := onesBelow 0 }) →
      ga.randomEngine = climbScript n k →
      Fitness.Run S UIntIndividual.individual (scriptedEngine script) 32 P 4294967295
          (n + 1) ga =
        some (RunState.Terminated 4294967295
          { population :=
              { genes := onesBelow 32 } :: List.replicate (P - 1) { genes := onesBelow 0 },
            randomEngine := [] }) := by
  intro n
  induction n with
  | zero =>
    intro k ga hk hpop hrng
    have hk32 : k = 32 := by omega
    subst hk32
    have hsel := Selection_climb S P 32 (by omega) ga hpop
    have htop : (Selection S UIntIndividual.individual ga).population[0]? =
        some { genes := onesBelow 32 } := by rw [hsel]; simp
    have hge : UIntIndividual.individual.getFitness { genes := onesBelow 32 } ≥ 4294967295 := by
      rw [onesBelow_fitness 32 (by omega)]; norm_num
    have hdec : UIntIndividual.individual.decode
        (UIntIndividual.individual.getGenes { genes := onesBelow 32 }) = 4294967295 :=
      onesBelow_decode 32 (by omega)
    have hstate : Selection S UIntIndividual.individual ga =
        { population :=
            { genes := onesBelow 32 } :: List.replicate (P - 1) { genes := onesBelow 0 },
          randomEngine := [] } := by
      show ({ population := (Selection S UIntIndividual.individual ga).population,
              randomEngine := ga.randomEngine } : GeneticAlgorithm UIntIndividual (List Nat)) = _
      rw [hsel, hrng]; rfl
    rw [Fitness.Run]
    simp only [htop, hge, if_true, returnTop, hdec]
    rw [hstate]
  | succ n ih =>
    intro k ga hk hpop hrng
    have hk32 : k < 32 := by omega
    have hsel := Selection_climb S P k (by omega) ga hpop
    have htop : (Selection S UIntIndividual.individual ga).population[0]? =
        some { genes := onesBelow k } := by rw [hsel]; simp
    have hlt : ¬ UIntIndividual.individual.getFitness { genes := onesBelow k } ≥ 4294967295 := by
      rw [onesBelow_fitness k (by omega), not_le]
      have h1 : 2 ^ k < 2 ^ 32 := Nat.pow_lt_pow_right (by omega) hk32
      have h2 : 2 ^ k - 1 < 4294967295 := by
        have := Nat.one_le_two_pow (n := k)
        norm_num at h1
        omega
      exact_mod_cast h2
    have hgen := climb_step S P k hP hk32 script (climbScript n (k + 1)) ga hpop hrng
    obtain ⟨ga2, hc, hm⟩ := specGeneration_parts S UIntIndividual.individual
      (scriptedEngine script) 32 P ga _ hgen
    have hrest := ih (k + 1)
      { population :=
          { genes := onesBelow (k + 1) } :: List.replicate (P - 1) { genes := onesBelow 0 },
        randomEngine := climbScript n (k + 1) } (by omega) (List.Perm.refl _) rfl
    rw [Fitness.Run]
    simp only [htop, hlt, if_false, hc, hm]
    exact hrest

/-- C14: for the sample `UIntIndividual` (`N = 32`), any population size `P >= 2` and any
implementation of `std::sort`, starting from the all-zero population with threshold
4294967295, there is a finite sequence of draws (96 raw words: per generation the cut
point, the individual index and the bit index) under which the fitness-bound
`Run(threshold)` returns, within 33 iterations, the value 4294967295, whose fitness is at
least the threshold. -/
theorem C14_Fitness_Run_reaches_optimum (S : StdSort) (P : Nat) (hP : 2 ≤ P) (rd : Nat) :
    ∃ (words : List Nat) (fuel : Nat) (gaF : GeneticAlgorithm UIntIndividual (List Nat)),
      words.length = 96 ∧ fuel = 33 ∧
      Fitness.Run S UIntIndividual.individual (scriptedEngine (fun _ => words)) 32 P
          4294967295 fuel
          (InitializePopulationGenes UIntIndividual.individual
            (scriptedEngine (fun _ => words)) rd (List.replicate 32 false)
            (GeneticAlgorithm.construct UIntIndividual.individual
              (scriptedEngine (fun _ => words)) P)) =
        some (RunState.Terminated 4294967295 gaF) ∧
      DecodesBest UIntIndividual.individual 4294967295 gaF ∧
      UIntIndividual.individual.getFitness
        (UIntIndividual.individual.construct (UIntIndividual.individual.encode 4294967295)) ≥
          4294967295 := by
  have hrun := climb_run S P hP (fun _ => climbScript 32 0) 32 0
    (InitializePopulationGenes UIntIndividual.individual
      (scriptedEngine (fun _ => climbScript 32 0)) rd (List.replicate 32 false)
      (GeneticAlgorithm.construct UIntIndividual.individual
        (scriptedEngine (fun _ => climbScript 32 0)) P)) (by omega)
    (by
      have hpop : (InitializePopulationGenes UIntIndividual.individual
          (scriptedEngine (fun _ => climbScript 32 0)) rd (List.replicate 32 false)
          (GeneticAlgorithm.construct UIntIndividual.individual
            (scriptedEngine (fun _ => climbScript 32 0)) P)).population =
          List.replicate P { genes := onesBelow 0 } := by
        simp [InitializePopulationGenes, fixedPopulationLoop, GeneticAlgorithm.construct,
          UIntIndividual.individual, onesBelow]
      rw [hpop]
      obtain ⟨Q, hQ⟩ : ∃ Q, P = Q + 1 := ⟨P - 1, by omega⟩
      subst hQ
      exact List.Perm.refl _)
    rfl
  refine ⟨climbScript 32 0, 33, _, by decide, rfl, hrun, ?_, ?_⟩
  · exact Fitness_Run_best S UIntIndividual.individual _ 32 P 4294967295 33 _ _ _ hrun
  · show ((UIntIndividual.decode (UIntIndividual.encode 4294967295) : Nat) : ℚ) ≥ 4294967295
    have h : UIntIndividual.decode (UIntIndividual.encode 4294967295) = 4294967295 := by decide
    rw [h]; norm_num

/-- Witness of C14: the sample's own population size, 10. -/
theorem C14_Fitness_Run_reaches_optimum_witness :
    2 ≤ 10 ∧
    ∃ (words : List Nat) (fuel : Nat) (gaF : GeneticAlgorithm UIntIndividual (List Nat)),
      words.length = 96 ∧ fuel = 33 ∧
      Fitness.Run insertionStdSort UIntIndividual.individual
          (scriptedEngine (fun _ => words)) 32 10 4294967295 fuel
          (InitializePopulationGenes UIntIndividual.individual
            (scriptedEngine (fun _ => words)) 0 (List.replicate 32 false)
            (GeneticAlgorithm.construct UIntIndividual.individual
              (scriptedEngine (fun _ => words)) 10)) =
        some (RunState.Terminated 4294967295 gaF) ∧
      DecodesBest UIntIndividual.individual 4294967295 gaF ∧
      UIntIndividual.individual.getFitness
        (UIntIndividual.individual.construct (UIntIndividual.individual.encode 4294967295)) ≥
          4294967295 :=
  ⟨by decide, C14_Fitness_Run_reaches_optimum insertionStdSort 10 (by decide) 0⟩

/-! ## Size invariants -/

theorem Crossover_preserves_wellFormed {T TIndividual σ : Type} (I : Individual T TIndividual)
    (E : TRandomEngine σ) (N P : Nat) (ga ga1 : GeneticAlgorithm TIndividual σ)
    (hw : WellFormed I N P ga) (h : Crossover I E N P ga = some ga1) :
    WellFormed I N P ga1 := by
  have hpop := (Crossover_population I E N P ga ga1 h).1
  exact ⟨by rw [hpop]; exact hw.1, fun x hx => hw.2 x (by rw [← hpop]; exact hx)⟩

theorem Mutation_preserves_wellFormed {T TIndividual σ : Type} (I : Individual T TIndividual)
    (E : TRandomEngine σ) (N P : Nat) (ga ga1 : GeneticAlgorithm TIndividual σ)
    (hw : WellFormed I N P ga) (hs : I.StoresGenes) (h : Mutation I E N P ga = some ga1) :
    WellFormed I N P ga1 := by
  unfold Mutation at h
  simp only at h
  cases hx : ga.population[(E.uniform 0 (subOne P) ga.randomEngine).1]? with
  | none => simp [hx] at h
  | some x =>
    simp only [hx] at h
    cases hb : (I.getGenes x)[(E.uniform 0 (subOne N)
        (E.uniform 0 (subOne P) ga.randomEngine).2).1]? with
    | none => simp [hb] at h
    | some bit =>
      simp only [hb] at h
      cases ha : assignAt (I.getGenes x)
          (E.uniform 0 (subOne N) (E.uniform 0 (subOne P) ga.randomEngine).2).1 (!bit) with
      | none => simp [ha] at h
      | some genes1 =>
        simp only [ha] at h
        cases hp : assignAt ga.population (E.uniform 0 (subOne P) ga.randomEngine).1
            (I.construct genes1) with
        | none => simp [hp] at h
        | some population1 =>
          simp only [hp, Option.some.injEq] at h
          subst h
          have hlen1 := assignAt_length ha
          have hlenp := assignAt_length hp
          refine ⟨by show population1.length = P; rw [hlenp]; exact hw.1, ?_⟩
          intro y hy
          have hy1 : y ∈ population1 := hy
          unfold assignAt at hp
          split at hp
          · simp only [Option.some.injEq] at hp
            rw [← hp] at hy1
            rcases List.mem_or_eq_of_mem_set hy1 with h1 | h1
            · exact hw.2 y h1
            · rw [h1, hs, hlen1]
              exact hw.2 x (List.getElem?_mem hx)
          · cases hp

theorem specGenerations_preserves_wellFormed {T TIndividual σ : Type} (S : StdSort)
    (I : Individual T TIndividual) (E : TRandomEngine σ) (N P : Nat) (hs : I.StoresGenes) :
    ∀ (G : Nat) (ga gaG : GeneticAlgorithm TIndividual σ), WellFormed I N P ga →
      specGenerations S I E N P G ga = some gaG → WellFormed I N P gaG := by
  intro G
  induction G with
  | zero =>
    intro ga gaG hw h
    simp only [specGenerations, Option.some.injEq] at h
    rw [← h]; exact hw
  | succ G ih =>
    intro ga gaG hw h
    rw [specGenerations] at h
    cases hgen : specGeneration S I E N P ga with
    | none => rw [hgen] at h; cases h
    | some ga3 =>
      rw [hgen] at h
      obtain ⟨ga2, hc, hm⟩ := specGeneration_parts S I E N P ga ga3 hgen
      have hw2 := Crossover_preserves_wellFormed I E N P _ ga2
        (Selection_wellFormed S I N P ga hw) hc
      have hw3 := Mutation_preserves_wellFormed I E N P ga2 ga3 hw2 hs hm
      exact ih ga3 gaG hw3 h

theorem drawnBits_length {σ : Type} (E : TRandomEngine σ) :
    ∀ (n : Nat) (s : σ), (drawnBits E n s).1.length = n := by
  intro n
  induction n with
  | zero => intro s; rfl
  | succ n ih => intro s; simp [drawnBits, ih]

theorem drawnPopulation_genes {T TIndividual σ : Type} (I : Individual T TIndividual)
    (E : TRandomEngine σ) (N : Nat) (hs : I.StoresGenes) :
    ∀ (P : Nat) (s : σ), ∀ x ∈ (drawnPopulation I E N P s).1, (I.getGenes x).length = N := by
  intro P
  induction P with
  | zero => intro s x hx; cases hx
  | succ P ih =>
    intro s x hx
    simp only [drawnPopulation, List.mem_cons] at hx
    rcases hx with h | h
    · rw [h, hs]; exact drawnBits_length E N s
    · exact ih _ x h

theorem fixedPopulationLoop_wellFormed {T TIndividual σ : Type} (I : Individual T TIndividual)
    (N P : Nat) (hs : I.StoresGenes) (genes : List Bool) (hg : genes.length = N)
    (population : List TIndividual) (hl : population.length = P) (s : σ) :
    WellFormed I N P { population := fixedPopulationLoop I genes population,
                       randomEngine := s } := by
  refine ⟨by simp [fixedPopulationLoop, hl], ?_⟩
  intro x hx
  simp only [fixedPopulationLoop, List.mem_map] at hx
  obtain ⟨_, _, hx⟩ := hx
  rw [← hx, hs]; exact hg

/-- C15: the sizes are invariant. With a constructor that stores the given genes, after
each of the four initialisation operations on a freshly constructed engine (the
argument-less one in each of its variants; the caller's bitset having `N` bits), and after
each of Selection, Crossover and Mutation on a population of `P` individuals with `N`-bit
genes, hence after any number of generations, the population holds exactly `P`
individuals and every gene vector has length `N`. -/
theorem C15_sizes_invariant {T TIndividual σ : Type} (S : StdSort)
    (I : Individual T TIndividual) (E : TRandomEngine σ) (N P : Nat) (hs : I.StoresGenes) :
    (∀ rd, WellFormed I N P
      (Generation.InitializePopulation I E N rd (GeneticAlgorithm.construct I E P))) ∧
    (∀ rd, ∃ ga1, Fitness.InitializePopulation I E N rd (GeneticAlgorithm.construct I E P) =
      some ga1 ∧ WellFormed I N P ga1) ∧
    (∀ rd, ∃ ga1, Time.InitializePopulation I E N rd (GeneticAlgorithm.construct I E P) =
      some ga1 ∧ WellFormed I N P ga1) ∧
    (∀ seed, ∃ ga1, InitializePopulationSeed I E N seed (GeneticAlgorithm.construct I E P) =
      some ga1 ∧ WellFormed I N P ga1) ∧
    (∀ rd genes, genes.length = N → WellFormed I N P
      (InitializePopulationGenes I E rd genes (GeneticAlgorithm.construct I E P))) ∧
    (∀ genes seed, genes.length = N → WellFormed I N P
      (InitializePopulationGenesSeed I E genes seed (GeneticAlgorithm.construct I E P))) ∧
    (∀ ga : GeneticAlgorithm TIndividual σ, WellFormed I N P ga →
      WellFormed I N P (Selection S I ga) ∧
      (∀ ga1, Crossover I E N P ga = some ga1 → WellFormed I N P ga1) ∧
      (∀ ga1, Mutation I E N P ga = some ga1 → WellFormed I N P ga1) ∧
      (∀ G gaG, specGenerations S I E N P G ga = some gaG → WellFormed I N P gaG)) := by
  have hlen : (GeneticAlgorithm.construct I E P).population.length = P := by
    simp [GeneticAlgorithm.construct]
  have hrandom : ∀ s : σ, WellFormed I N P
      ({ population := (drawnPopulation I E N P s).1,
         randomEngine := (drawnPopulation I E N P s).2 } : GeneticAlgorithm TIndividual σ) :=
    fun s => ⟨drawnPopulation_length I E N P s, drawnPopulation_genes I E N hs P s⟩
  refine ⟨?_, ?_, ?_, ?_, ?_, ?_, ?_⟩
  · intro rd
    exact fixedPopulationLoop_wellFormed I N P hs _ (by simp) _ hlen _
  · intro rd
    refine ⟨_, ?_, hrandom (E.seed rd)⟩
    simp only [Fitness.InitializePopulation, randomPopulationLoop_eq, hlen]
  · intro rd
    refine ⟨_, ?_, hrandom (E.seed rd)⟩
    simp only [Time.InitializePopulation, randomPopulationLoop_eq, hlen]
  · intro seed
    refine ⟨_, ?_, hrandom (E.seed seed)⟩
    simp only [InitializePopulationSeed, randomPopulationLoop_eq, hlen]
  · intro rd genes hg
    exact fixedPopulationLoop_wellFormed I N P hs genes hg _ hlen _
  · intro genes seed hg
    exact fixedPopulationLoop_wellFormed I N P hs genes hg _ hlen _
  · intro ga hw
    exact ⟨Selection_wellFormed S I N P ga hw,
      fun ga1 h => Crossover_preserves_wellFormed I E N P ga ga1 hw h,
      fun ga1 h => Mutation_preserves_wellFormed I E N P ga ga1 hw hs h,
      fun G gaG h => specGenerations_preserves_wellFormed S I E N P hs G ga gaG hw h⟩

/-- Witness of C15: the sample engine with three individuals. -/
theorem C15_sizes_invariant_witness :
    UIntIndividual.individual.StoresGenes ∧
    WellFormed UIntIndividual.individual 32 3
      (Generation.InitializePopulation UIntIndividual.individual
        (scriptedEngine (fun w => List.replicate 96 w)) 32 1
        (GeneticAlgorithm.construct UIntIndividual.individual
          (scriptedEngine (fun w => List.replicate 96 w)) 3)) :=
  ⟨fun _ => rfl, (C15_sizes_invariant insertionStdSort UIntIndividual.individual
    (scriptedEngine (fun w => List.replicate 96 w)) 32 3 (fun _ => rfl)).1 1⟩

/-- C16: for every gene vector `g`, every seed and every entropy value, after
`InitializePopulation(g)` or `InitializePopulation(g, seed)` on a freshly constructed
engine the population consists of `P` individuals, each constructed from `g`; with a
constructor that stores its argument, every one of them has genes equal to `g`. The two
overloads are the same text in the three stop-condition variants. -/
theorem C16_InitializePopulation_fixed_genes {T TIndividual σ : Type}
    (I : Individual T TIndividual) (E : TRandomEngine σ) (P : Nat) (g : List Bool)
    (rd seed : Nat) :
    (InitializePopulationGenes I E rd g (GeneticAlgorithm.construct I E P)).population =
      List.replicate P (I.construct g) ∧
    (InitializePopulationGenesSeed I E g seed (GeneticAlgorithm.construct I E P)).population =
      List.replicate P (I.construct g) ∧
    (InitializePopulationGenes I E rd g (GeneticAlgorithm.construct I E P)).randomEngine =
      E.seed rd ∧
    (InitializePopulationGenesSeed I E g seed (GeneticAlgorithm.construct I E P)).randomEngine =
      E.seed seed ∧
    (I.StoresGenes →
      (∀ x ∈ (InitializePopulationGenes I E rd g
          (GeneticAlgorithm.construct I E P)).population, I.getGenes x = g) ∧
      (∀ x ∈ (InitializePopulationGenesSeed I E g seed
          (GeneticAlgorithm.construct I E P)).population, I.getGenes x = g)) := by
  have h1 : (InitializePopulationGenes I E rd g (GeneticAlgorithm.construct I E P)).population =
      List.replicate P (I.construct g) := by
    simp [InitializePopulationGenes, fixedPopulationLoop, GeneticAlgorithm.construct]
  have h2 : (InitializePopulationGenesSeed I E g seed
      (GeneticAlgorithm.construct I E P)).population = List.replicate P (I.construct g) := by
    simp [InitializePopulationGenesSeed, fixedPopulationLoop, GeneticAlgorithm.construct]
  refine ⟨h1, h2, rfl, rfl, ?_⟩
  intro hs
  constructor
  · intro x hx
    rw [h1] at hx
    rw [List.eq_of_mem_replicate hx, hs]
  · intro x hx
    rw [h2] at hx
    rw [List.eq_of_mem_replicate hx, hs]

/-- Witness of C16: the sample engine, ten individuals, the genes of the value 5. -/
theorem C16_InitializePopulation_fixed_genes_witness :
    UIntIndividual.individual.StoresGenes ∧
    ((∀ x ∈ (InitializePopulationGenes UIntIndividual.individual
        (scriptedEngine (fun w => List.replicate 96 w)) 1 (UIntIndividual.encode 5)
        (GeneticAlgorithm.construct UIntIndividual.individual
          (scriptedEngine (fun w => List.replicate 96 w)) 10)).population,
        UIntIndividual.individual.getGenes x = UIntIndividual.encode 5) ∧
      (∀ x ∈ (InitializePopulationGenesSeed UIntIndividual.individual
        (scriptedEngine (fun w => List.replicate 96 w)) (UIntIndividual.encode 5) 7
        (GeneticAlgorithm.construct UIntIndividual.individual
          (scriptedEngine (fun w => List.replicate 96 w)) 10)).population,
        UIntIndividual.individual.getGenes x = UIntIndividual.encode 5)) :=
  ⟨fun _ => rfl, (C16_InitializePopulation_fixed_genes UIntIndividual.individual
    (scriptedEngine (fun w => List.replicate 96 w)) 10 (UIntIndividual.encode 5) 1 7).2.2.2.2
    (fun _ => rfl)⟩

/-! ## The time-bound run -/

theorem Time_runLoop_exact {T TIndividual σ : Type} (S : StdSort)
    (I : Individual T TIndividual) (E : TRandomEngine σ) (N P : Nat) (now : Nat → ℚ)
    (time start : ℚ) :
    ∀ (m k : Nat) (ga : GeneticAlgorithm TIndividual σ),
      (∀ j, j < m → now (k + j) - start < time) → now (k + m) - start ≥ time →
      ∀ extra, Time.runLoop S I E N P now time start (m + extra + 1) k ga =
        (specRunGeneration S I E N P m ga).map (fun r => RunState.Terminated r.1 r.2) := by
  intro m
  induction m with
  | zero =>
    intro k ga _ hge extra
    have hge0 : now k - start ≥ time := hge
    rw [Nat.zero_add, Time.runLoop]
    simp only [hge0, if_true, specRunGeneration, specGenerations, Option.some_bind]
    cases returnTop I (Selection S I ga) with
    | none => rfl
    | some r => rfl
  | succ m ih =>
    intro k ga hlt hge extra
    have hlt0 : ¬ now k - start ≥ time := not_le.mpr (hlt 0 (Nat.succ_pos m))
    have hfuel : m + 1 + extra + 1 = (m + extra + 1) + 1 := by omega
    rw [hfuel, Time.runLoop]
    simp only [hlt0, if_false, specRunGeneration, specGenerations, specGeneration]
    cases hc : Crossover I E N P (Selection S I ga) with
    | none => rfl
    | some ga1 =>
      cases hm : Mutation I E N P ga1 with
      | none => simp [hm]
      | some ga2 =>
        have h := ih (k + 1) ga2
          (fun j hj => by
            have := hlt (j + 1) (Nat.succ_lt_succ hj)
            rwa [show k + (j + 1) = k + 1 + j by omega] at this)
          (by rwa [show k + (m + 1) = k + 1 + m by omega] at hge) extra
        simp only [Option.some_bind, hm]
        exact h

theorem Time_runLoop_running {T TIndividual σ : Type} (S : StdSort)
    (I : Individual T TIndividual) (E : TRandomEngine σ) (N P : Nat) (now : Nat → ℚ)
    (time start : ℚ) :
    ∀ (m k : Nat) (ga : GeneticAlgorithm TIndividual σ),
      (∀ j, j < m → now (k + j) - start < time) →
      Time.runLoop S I E N P now time start m k ga =
        (specGenerations S I E N P m ga).map RunState.Running := by
  intro m
  induction m with
  | zero => intro k ga _; rfl
  | succ m ih =>
    intro k ga hlt
    have hlt0 : ¬ now k - start ≥ time := not_le.mpr (hlt 0 (Nat.succ_pos m))
    rw [Time.runLoop]
    simp only [hlt0, if_false, specGenerations, specGeneration]
    cases hc : Crossover I E N P (Selection S I ga) with
    | none => rfl
    | some ga1 =>
      cases hm : Mutation I E N P ga1 with
      | none => simp [hm]
      | some ga2 =>
        have h := ih (k + 1) ga2 (fun j hj => by
          have := hlt (j + 1) (Nat.succ_lt_succ hj)
          rwa [show k + (j + 1) = k + 1 + j by omega] at this)
        simp only [Option.some_bind, hm]
        exact h

theorem specRunGeneration_defined {T TIndividual σ : Type} (S : StdSort)
    (I : Individual T TIndividual) (E : TRandomEngine σ) (N P : Nat)
    (hs : I.StoresGenes) (hE : E.InRange)
    (hP : 2 ≤ P) (hP2 : P ≤ SIZE_MAX) (hN : 1 ≤ N) (hN2 : N ≤ SIZE_MAX)
    (G : Nat) (ga : GeneticAlgorithm TIndividual σ) (hw : WellFormed I N P ga) :
    ∃ gaG top, specGenerations S I E N P G ga = some gaG ∧
      (Selection S I gaG).population[0]? = some top ∧
      specRunGeneration S I E N P G ga = some (I.decode (I.getGenes top), Selection S I gaG) := by
  obtain ⟨gaG, hG, hwG⟩ := specGenerations_defined S I E N P hs hE hP hP2 hN hN2 G ga hw
  obtain ⟨top, htop⟩ := top_defined I N P _ (Selection_wellFormed S I N P gaG hwG) (by omega)
  refine ⟨gaG, top, hG, htop, ?_⟩
  simp only [specRunGeneration, hG, Option.some_bind, returnTop, htop]

/-- C17: with the clock given by its successive readings, the elapsed time read at the
top of iteration `j` being `now (j + 1) - now 0`: while every reading so far is strictly
below the budget the time-bound run has performed one (Selection, Crossover, Mutation)
cycle per reading and is still running; at the first reading at or above the budget it
leaves the loop, performs one final Selection and returns the decoded genes of position
0, exactly as `m` full generations followed by a Selection would; if the first reading is
already at or above the budget (as with a budget `<= 0` on a clock that does not go
back) no cycle is performed; and from a well-formed state with `P >= 2`, `N >= 1` and
in-range draws it does return. -/
theorem C17_Time_Run_cycles_per_reading {T TIndividual σ : Type} (S : StdSort)
    (I : Individual T TIndividual) (E : TRandomEngine σ) (N P : Nat) (now : Nat → ℚ)
    (time : ℚ) (ga : GeneticAlgorithm TIndividual σ) :
    (∀ m, (∀ j, j < m → now (j + 1) - now 0 < time) →
      Time.Run S I E N P now time m ga =
        (specGenerations S I E N P m ga).map RunState.Running) ∧
    (∀ m, (∀ j, j < m → now (j + 1) - now 0 < time) → now (m + 1) - now 0 ≥ time →
      ∀ extra, Time.Run S I E N P now time (m + extra + 1) ga =
        (specRunGeneration S I E N P m ga).map (fun r => RunState.Terminated r.1 r.2)) ∧
    (now 1 - now 0 ≥ time → ∀ extra, Time.Run S I E N P now time (extra + 1) ga =
      (returnTop I (Selection S I ga)).map (fun r => RunState.Terminated r.1 r.2)) ∧
    (time ≤ 0 → now 0 ≤ now 1 → ∀ extra, Time.Run S I E N P now time (extra + 1) ga =
      (returnTop I (Selection S I ga)).map (fun r => RunState.Terminated r.1 r.2)) ∧
    (WellFormed I N P ga → I.StoresGenes → E.InRange →
      2 ≤ P → P ≤ SIZE_MAX → 1 ≤ N → N ≤ SIZE_MAX →
      ∀ m, (∀ j, j < m → now (j + 1) - now 0 < time) → now (m + 1) - now 0 ≥ time →
      ∃ gam top, specGenerations S I E N P m ga = some gam ∧
        (Selection S I gam).population[0]? = some top ∧
        ∀ extra, Time.Run S I E N P now time (m + extra + 1) ga =
          some (RunState.Terminated (I.decode (I.getGenes top)) (Selection S I gam))) := by
  have hexact : ∀ m, (∀ j, j < m → now (j + 1) - now 0 < time) → now (m + 1) - now 0 ≥ time →
      ∀ extra, Time.Run S I E N P now time (m + extra + 1) ga =
        (specRunGeneration S I E N P m ga).map (fun r => RunState.Terminated r.1 r.2) := by
    intro m hlt hge extra
    exact Time_runLoop_exact S I E N P now time (now 0) m 1 ga
      (fun j hj => by rw [Nat.add_comm]; exact hlt j hj) (by rw [Nat.add_comm]; exact hge) extra
  have hfirst : now 1 - now 0 ≥ time → ∀ extra, Time.Run S I E N P now time (extra + 1) ga =
      (returnTop I (Selection S I ga)).map (fun r => RunState.Terminated r.1 r.2) := by
    intro hge extra
    have h := hexact 0 (fun j hj => absurd hj (Nat.not_lt_zero j)) hge extra
    rw [Nat.zero_add] at h
    rw [h]
    simp only [specRunGeneration, specGenerations, Option.some_bind]
  refine ⟨?_, hexact, hfirst, ?_, ?_⟩
  · intro m hlt
    exact Time_runLoop_running S I E N P now time (now 0) m 1 ga
      (fun j hj => by rw [Nat.add_comm]; exact hlt j hj)
  · intro ht hmono extra
    exact hfirst (le_trans ht (sub_nonneg.mpr hmono)) extra
  · intro hw hs hE hP hP2 hN hN2 m hlt hge
    obtain ⟨gam, top, hspec, htop, hrun⟩ :=
      specRunGeneration_defined S I E N P hs hE hP hP2 hN hN2 m ga hw
    refine ⟨gam, top, hspec, htop, ?_⟩
    intro extra
    rw [hexact m hlt hge extra, hrun]
    rfl

/-- Witness of C17: the sample engine on a clock that ticks once per reading, with a
budget of two ticks; one cycle is performed. -/
theorem C17_Time_Run_cycles_per_reading_witness :
    (∀ j, j < 1 → ((j + 1 : Nat) : ℚ) - ((0 : Nat) : ℚ) < 2) ∧
    ((1 + 1 : Nat) : ℚ) - ((0 : Nat) : ℚ) ≥ 2 ∧
    ∀ extra, Time.Run insertionStdSort UIntIndividual.individual
        (scriptedEngine (fun _ => [])) 32 3 (fun k => (k : ℚ)) 2 (1 + extra + 1)
        (sampleState [1, 7, 3] [16, 1, 4, 9, 0, 31]) =
      (specRunGeneration insertionStdSort UIntIndividual.individual
        (scriptedEngine (fun _ => [])) 32 3 1
        (sampleState [1, 7, 3] [16, 1, 4, 9, 0, 31])).map
          (fun r => RunState.Terminated r.1 r.2) :=
  ⟨by intro j hj; interval_cases j; norm_num, by norm_num,
    (C17_Time_Run_cycles_per_reading insertionStdSort UIntIndividual.individual
      (scriptedEngine (fun _ => [])) 32 3 (fun k => (k : ℚ)) 2
      (sampleState [1, 7, 3] [16, 1, 4, 9, 0, 31])).2.1 1
      (by intro j hj; interval_cases j; norm_num) (by norm_num)⟩

/-! ## The children that Crossover builds -/

theorem swapLoop_eq (N : Nat) :
    ∀ (fuel j : Nat) (child1 child2 : List Bool), child1.length = N → child2.length = N →
      fuel = N - j →
      swapLoop N fuel j child1 child2 =
        some (child1.take j ++ child2.drop j, child2.take j ++ child1.drop j) := by
  intro fuel
  induction fuel with
  | zero =>
    intro j c1 c2 h1 h2 hf
    have hj : N ≤ j := by omega
    rw [List.take_of_length_le (by omega), List.take_of_length_le (by omega),
      List.drop_of_length_le (by omega), List.drop_of_length_le (by omega)]
    simp [swapLoop]
  | succ fuel ih =>
    intro j c1 c2 h1 h2 hf
    have hj : j < N := by omega
    have l1 : j < c1.length := by omega
    have l2 : j < c2.length := by omega
    have e1 : c1[j]? = some (c1.get ⟨j, l1⟩) := by simp [List.getElem?_eq_getElem, l1]
    have e2 : c2[j]? = some (c2.get ⟨j, l2⟩) := by simp [List.getElem?_eq_getElem, l2]
    have a1 := assignAt_eq_some c1 j (c2.get ⟨j, l2⟩) l1
    have a2 := assignAt_eq_some c2 j (c1.get ⟨j, l1⟩) l2
    have h := ih (j + 1) (c1.set j (c2.get ⟨j, l2⟩)) (c2.set j (c1.get ⟨j, l1⟩))
      (by simp [h1]) (by simp [h2]) (by omega)
    rw [take_succ_set c1 j _ l1, take_succ_set c2 j _ l2,
      List.drop_set_of_lt _ _ (Nat.lt_succ_self j),
      List.drop_set_of_lt _ _ (Nat.lt_succ_self j)] at h
    have d1 : c1.drop j = c1.get ⟨j, l1⟩ :: c1.drop (j + 1) := List.drop_eq_getElem_cons l1
    have d2 : c2.drop j = c2.get ⟨j, l2⟩ :: c2.drop (j + 1) := List.drop_eq_getElem_cons l2
    simp only [swapLoop, hj, if_true, e1, e2, a1, a2, h, d1, d2, List.append_assoc,
      List.singleton_append]

theorem crossoverLoop_slots {T TIndividual : Type} (I : Individual T TIndividual)
    (N P c : Nat) (population : List TIndividual) (parent1 parent2 : TIndividual)
    (h0 : population[0]? = some parent1) (h1 : population[1]? = some parent2)
    (g1 : (I.getGenes parent1).length = N) (g2 : (I.getGenes parent2).length = N) :
    ∀ (fuel i : Nat) (newPopulation : List TIndividual), newPopulation.length = P →
      i % 2 = 0 → P ≤ i + 2 * fuel →
      ∃ r, crossoverLoop I N P c population fuel i newPopulation = some r ∧ r.length = P ∧
        ∀ m, m < P → r[m]? = if m < i then newPopulation[m]? else
          some (if m % 2 = 0
            then I.construct ((I.getGenes parent1).take c ++ (I.getGenes parent2).drop c)
            else I.construct ((I.getGenes parent2).take c ++ (I.getGenes parent1).drop c)) := by
  intro fuel
  induction fuel with
  | zero =>
    intro i np hnp _ hP
    refine ⟨np, rfl, hnp, ?_⟩
    intro m hm
    have : m < i := by omega
    simp [this]
  | succ fuel ih =>
    intro i np hnp hi hP
    by_cases hlt : i < P
    · have hsw := swapLoop_eq N (N - c) c _ _ g1 g2 rfl
      have a1 := assignAt_eq_some np i
        (I.construct ((I.getGenes parent1).take c ++ (I.getGenes parent2).drop c)) (by omega)
      by_cases hlt1 : i + 1 < P
      · have a2 := assignAt_eq_some
          (np.set i (I.construct ((I.getGenes parent1).take c ++ (I.getGenes parent2).drop c)))
          (i + 1)
          (I.construct ((I.getGenes parent2).take c ++ (I.getGenes parent1).drop c))
          (by simp; omega)
        obtain ⟨r, hr, hlen, hslots⟩ := ih (i + 2) _ (by simp [hnp] : ((np.set i
          (I.construct ((I.getGenes parent1).take c ++ (I.getGenes parent2).drop c))).set
          (i + 1) (I.construct ((I.getGenes parent2).take c ++
            (I.getGenes parent1).drop c))).length = P) (by omega) (by omega)
        refine ⟨r, ?_, hlen, ?_⟩
        · simp only [crossoverLoop, hlt, if_true, h0, h1, hsw, a1, hlt1, a2]
          exact hr
        · intro m hm
          rw [hslots m hm]
          by_cases hm2 : m < i + 2
          · simp only [hm2, if_true]
            by_cases hmi : m < i
            · simp only [hmi, if_true]
              rw [List.getElem?_set_ne (by omega), List.getElem?_set_ne (by omega)]
            · simp only [hmi, if_false]
              by_cases hme : m = i
              · subst hme
                rw [List.getElem?_set_ne (by omega), List.getElem?_set_self (by omega)]
                simp [hi]
              · have hme1 : m = i + 1 := by omega
                subst hme1
                rw [List.getElem?_set_self (by simp; omega)]
                have : (i + 1) % 2 ≠ 0 := by omega
                simp [this]
          · have hmi : ¬ m < i := by omega
            simp only [hm2, hmi, if_false]
      · obtain ⟨r, hr, hlen, hslots⟩ := ih (i + 2) _ (by simp [hnp] : (np.set i
          (I.construct ((I.getGenes parent1).take c ++
            (I.getGenes parent2).drop c))).length = P) (by omega) (by omega)
        refine ⟨r, ?_, hlen, ?_⟩
        · simp only [crossoverLoop, hlt, if_true, h0, h1, hsw, a1, hlt1, if_false]
          exact hr
        · intro m hm
          rw [hslots m hm]
          have hm2 : m < i + 2 := by omega
          simp only [hm2, if_true]
          by_cases hmi : m < i
          · simp only [hmi, if_true]
            rw [List.getElem?_set_ne (by omega)]
          · have hme : m = i := by omega
            subst hme
            simp only [hmi, if_false]
            rw [List.getElem?_set_self (by omega)]
            simp [hi]
    · refine ⟨np, by simp [crossoverLoop, hlt], hnp, ?_⟩
      intro m hm
      have : m < i := by omega
      simp [this]

theorem crossoverNewPopulation_eq {T TIndividual : Type} (I : Individual T TIndividual)
    (N P c : Nat) (population : List TIndividual) (parent1 parent2 : TIndividual)
    (h0 : population[0]? = some parent1) (h1 : population[1]? = some parent2)
    (g1 : (I.getGenes parent1).length = N) (g2 : (I.getGenes parent2).length = N) :
    crossoverNewPopulation I N P c population =
      some (specNewPopulation I P
        ((I.getGenes parent1).take c ++ (I.getGenes parent2).drop c)
        ((I.getGenes parent2).take c ++ (I.getGenes parent1).drop c)) := by
  obtain ⟨r, hr, hlen, hslots⟩ := crossoverLoop_slots I N P c population parent1 parent2
    h0 h1 g1 g2 P 0 (List.replicate P I.dflt) (by simp) rfl (by omega)
  rw [crossoverNewPopulation, hr]
  congr 1
  apply List.ext_getElem?
  intro m
  by_cases hm : m < P
  · rw [hslots m hm]
    simp [specNewPopulation, List.getElem?_range hm]
  · rw [List.getElem?_eq_none (by omega), List.getElem?_eq_none (by simp [specNewPopulation]; omega)]

/-- C18, amended: the children that Crossover builds are not special-cased at the ends of
the cut-point range. For parents in slots 0 and 1 with `N`-bit genes and every cut point
`c`, child A (every even slot of the replacement array) is parent 1's bits `[0, c)`
followed by parent 2's bits `[c, N)`, and child B (every odd slot) is parent 2's bits
`[0, c)` followed by parent 1's bits `[c, N)`. With `c = 0` child A's genes are parent
2's and child B's are parent 1's (full swap). With `c = N - 1` exactly the last bit is
exchanged: child A has parent 1's bits below `N - 1` and parent 2's bit `N - 1`, child B
has parent 2's bits below `N - 1` and parent 1's bit `N - 1`. -/
theorem C18_Crossover_children {T TIndividual : Type} (I : Individual T TIndividual)
    (N P : Nat) (population : List TIndividual) (parent1 parent2 : TIndividual)
    (h0 : population[0]? = some parent1) (h1 : population[1]? = some parent2)
    (g1 : (I.getGenes parent1).length = N) (g2 : (I.getGenes parent2).length = N) :
    (∀ c, crossoverNewPopulation I N P c population =
      some (specNewPopulation I P
        ((I.getGenes parent1).take c ++ (I.getGenes parent2).drop c)
        ((I.getGenes parent2).take c ++ (I.getGenes parent1).drop c))) ∧
    crossoverNewPopulation I N P 0 population =
      some (specNewPopulation I P (I.getGenes parent2) (I.getGenes parent1)) ∧
    (1 ≤ N → ∃ childA childB,
      crossoverNewPopulation I N P (N - 1) population =
        some (specNewPopulation I P childA childB) ∧
      childA.length = N ∧ childB.length = N ∧
      (∀ m, m < N - 1 → childA[m]? = (I.getGenes parent1)[m]? ∧
        childB[m]? = (I.getGenes parent2)[m]?) ∧
      childA[N - 1]? = (I.getGenes parent2)[N - 1]? ∧
      childB[N - 1]? = (I.getGenes parent1)[N - 1]?) := by
  have hall := fun c => crossoverNewPopulation_eq I N P c population parent1 parent2 h0 h1 g1 g2
  refine ⟨hall, ?_, ?_⟩
  · have h := hall 0
    simpa using h
  · intro hN
    refine ⟨_, _, hall (N - 1), ?_, ?_, ?_, ?_, ?_⟩
    · simp [g1, g2]
    · simp [g1, g2]
    · intro m hm
      constructor
      · rw [List.getElem?_append_left (by simp [g1]; omega), List.getElem?_take_of_lt hm]
      · rw [List.getElem?_append_left (by simp [g2]; omega), List.getElem?_take_of_lt hm]
    · rw [List.getElem?_append_right (by simp), List.getElem?_drop]
      simp [g1]
    · rw [List.getElem?_append_right (by simp), List.getElem?_drop]
      simp [g2]

/-- Witness of C18, amended: the parents 4294967295 and 0 of the sample, three slots. -/
theorem C18_Crossover_children_witness :
    (sampleState [4294967295, 0, 0] []).population[0]? =
      some { genes := UIntIndividual.encode 4294967295 } ∧
    (sampleState [4294967295, 0, 0] []).population[1]? =
      some { genes := UIntIndividual.encode 0 } ∧
    (UIntIndividual.individual.getGenes { genes := UIntIndividual.encode 4294967295 }).length
      = 32 ∧
    (UIntIndividual.individual.getGenes { genes := UIntIndividual.encode 0 }).length = 32 ∧
    crossoverNewPopulation UIntIndividual.individual 32 3 0
        (sampleState [4294967295, 0, 0] []).population =
      some (specNewPopulation UIntIndividual.individual 3
        (UIntIndividual.individual.getGenes { genes := UIntIndividual.encode 0 })
        (UIntIndividual.individual.getGenes { genes := UIntIndividual.encode 4294967295 })) :=
  ⟨by decide, by decide, by decide, by decide,
    (C18_Crossover_children UIntIndividual.individual 32 3
      (sampleState [4294967295, 0, 0] []).population
      { genes := UIntIndividual.encode 4294967295 } { genes := UIntIndividual.encode 0 }
      (by decide) (by decide) (by decide) (by decide)).2.1⟩

/-- C18 fails as stated at `c = N - 1`: for the parents 4294967295 and 0 of the sample and
the cut point 31, child A is 2147483647 and child B is 2147483648, neither a copy of its
parent. -/
theorem C18_last_cut_point_swaps_last_bit :
    (crossoverNewPopulation UIntIndividual.individual 32 2 31
        (sampleState [4294967295, 0] []).population).map decodedValues =
      some [2147483647, 2147483648] ∧
    crossoverNewPopulation UIntIndividual.individual 32 2 31
        (sampleState [4294967295, 0] []).population ≠
      some (sampleState [4294967295, 0] []).population := by
  refine ⟨by decide, by decide⟩

/-! ## Every index is in bounds -/

theorem Fitness_Run_defined {T TIndividual σ : Type} (S : StdSort)
    (I : Individual T TIndividual) (E : TRandomEngine σ) (N P : Nat) (fitness : ℚ)
    (hs : I.StoresGenes) (hE : E.InRange)
    (hP : 2 ≤ P) (hP2 : P ≤ SIZE_MAX) (hN : 1 ≤ N) (hN2 : N ≤ SIZE_MAX) :
    ∀ (fuel : Nat) (ga : GeneticAlgorithm TIndividual σ), WellFormed I N P ga →
      ∃ r, Fitness.Run S I E N P fitness fuel ga = some r := by
  intro fuel
  induction fuel with
  | zero => intro ga _; exact ⟨RunState.Running ga, rfl⟩
  | succ fuel ih =>
    intro ga hw
    have hsel := Selection_wellFormed S I N P ga hw
    obtain ⟨top, htop⟩ := top_defined I N P _ hsel (by omega)
    by_cases hge : I.getFitness top ≥ fitness
    · refine ⟨RunState.Terminated (I.decode (I.getGenes top)) (Selection S I ga), ?_⟩
      rw [Fitness.Run]
      simp only [htop, hge, if_true, returnTop]
    · obtain ⟨ga3, hgen, hw3⟩ := specGeneration_defined S I E N P ga hw hs hE hP hP2 hN hN2
      obtain ⟨ga2, hc, hm⟩ := specGeneration_parts S I E N P ga ga3 hgen
      obtain ⟨r, hr⟩ := ih ga3 hw3
      refine ⟨r, ?_⟩
      rw [Fitness.Run]
      simp only [htop, hge, if_false, hc, hm]
      exact hr

theorem Time_runLoop_defined {T TIndividual σ : Type} (S : StdSort)
    (I : Individual T TIndividual) (E : TRandomEngine σ) (N P : Nat) (now : Nat → ℚ)
    (time start : ℚ) (hs : I.StoresGenes) (hE : E.InRange)
    (hP : 2 ≤ P) (hP2 : P ≤ SIZE_MAX) (hN : 1 ≤ N) (hN2 : N ≤ SIZE_MAX) :
    ∀ (fuel k : Nat) (ga : GeneticAlgorithm TIndividual σ), WellFormed I N P ga →
      ∃ r, Time.runLoop S I E N P now time start fuel k ga = some r := by
  intro fuel
  induction fuel with
  | zero => intro k ga _; exact ⟨RunState.Running ga, rfl⟩
  | succ fuel ih =>
    intro k ga hw
    have hsel := Selection_wellFormed S I N P ga hw
    obtain ⟨top, htop⟩ := top_defined I N P _ hsel (by omega)
    by_cases hge : now k - start ≥ time
    · refine ⟨RunState.Terminated (I.decode (I.getGenes top)) (Selection S I ga), ?_⟩
      rw [Time.runLoop]
      simp only [hge, if_true, returnTop, htop]
    · obtain ⟨ga3, hgen, hw3⟩ := specGeneration_defined S I E N P ga hw hs hE hP hP2 hN hN2
      obtain ⟨ga2, hc, hm⟩ := specGeneration_parts S I E N P ga ga3 hgen
      obtain ⟨r, hr⟩ := ih (k + 1) ga3 hw3
      refine ⟨r, ?_⟩
      rw [Time.runLoop]
      simp only [hge, if_false, hc, hm]
      exact hr

/-- C19: under `P >= 2`, `N >= 1` and in-range draws, on a population of `P` individuals
with `N`-bit genes (and a constructor that stores its genes), no access is out of range.
The drawn cut point is below `N`; Crossover's reads of slots 0 and 1, its bit accesses
and its writes of the `P` replacement slots all succeed; the drawn slot is below `P`
and the drawn bit below `N`, and Mutation's accesses succeed and leave a population of
the same shape; hence every generation-bound, fitness-bound and time-bound run, followed
for any number of iterations, completes without an out-of-range access. -/
theorem C19_no_out_of_range_access {T TIndividual σ : Type} (S : StdSort)
    (I : Individual T TIndividual) (E : TRandomEngine σ) (N P : Nat)
    (ga : GeneticAlgorithm TIndividual σ)
    (hw : WellFormed I N P ga) (hs : I.StoresGenes) (hE : E.InRange)
    (hP : 2 ≤ P) (hP2 : P ≤ SIZE_MAX) (hN : 1 ≤ N) (hN2 : N ≤ SIZE_MAX) :
    (E.uniform 0 (subOne N) ga.randomEngine).1 < N ∧
    (∃ r, crossoverNewPopulation I N P (E.uniform 0 (subOne N) ga.randomEngine).1
      ga.population = some r ∧ r.length = P) ∧
    (∃ ga1, Crossover I E N P ga = some ga1) ∧
    (E.uniform 0 (subOne P) ga.randomEngine).1 < P ∧
    (E.uniform 0 (subOne N) (E.uniform 0 (subOne P) ga.randomEngine).2).1 < N ∧
    (∃ ga1, Mutation I E N P ga = some ga1 ∧ WellFormed I N P ga1) ∧
    (∀ G, ∃ r, Generation.Run S I E N P G ga = some r) ∧
    (∀ fitness fuel, ∃ r, Fitness.Run S I E N P fitness fuel ga = some r) ∧
    (∀ now time fuel, ∃ r, Time.Run S I E N P now time fuel ga = some r) := by
  have hP3 := subOne_eq P (by omega) hP2
  have hN3 := subOne_eq N hN hN2
  have hc := (hE 0 (subOne N) ga.randomEngine (Nat.zero_le _)).2
  have hi := (hE 0 (subOne P) ga.randomEngine (Nat.zero_le _)).2
  have hj := (hE 0 (subOne N) (E.uniform 0 (subOne P) ga.randomEngine).2 (Nat.zero_le _)).2
  obtain ⟨p1, h0⟩ := top_defined I N P ga hw (by omega)
  have l1 : 1 < ga.population.length := by rw [hw.1]; omega
  have h1 : ga.population[1]? = some (ga.population.get ⟨1, l1⟩) := by
    simp [List.getElem?_eq_getElem, l1]
  have hnew := crossoverNewPopulation_eq I N P (E.uniform 0 (subOne N) ga.randomEngine).1
    ga.population p1 _ h0 h1 (hw.2 _ (List.getElem?_mem h0)) (hw.2 _ (List.get_mem _ _ _))
  refine ⟨by omega, ⟨_, hnew, by simp [specNewPopulation]⟩,
    ⟨_, Crossover_defined I E N P ga hw hP⟩, by omega, by omega,
    Mutation_wellFormed I E N P ga hw hs hE (by omega) hP2 hN hN2, ?_, ?_, ?_⟩
  · intro G
    obtain ⟨gaG, hG, hwG⟩ := specGenerations_defined S I E N P hs hE hP hP2 hN hN2 G ga hw
    obtain ⟨top, htop⟩ := top_defined I N P _ (Selection_wellFormed S I N P gaG hwG) (by omega)
    refine ⟨(I.decode (I.getGenes top), Selection S I gaG), ?_⟩
    unfold Generation.Run
    rw [Generation_runLoop_eq_specGenerations S I E N P G G 0 ga (by omega), hG]
    simp only [returnTop, htop]
  · intro fitness fuel
    exact Fitness_Run_defined S I E N P fitness hs hE hP hP2 hN hN2 fuel ga hw
  · intro now time fuel
    exact Time_runLoop_defined S I E N P now time (now 0) hs hE hP hP2 hN hN2 fuel 1 ga hw

/-- Witness of C19: the sample engine with three individuals. -/
theorem C19_no_out_of_range_access_witness :
    WellFormed UIntIndividual.individual 32 3 (sampleState [1, 7, 3] [16, 1, 4, 9, 0, 31]) ∧
    UIntIndividual.individual.StoresGenes ∧ (scriptedEngine (fun _ => [])).InRange ∧
    2 ≤ 3 ∧ 3 ≤ SIZE_MAX ∧ 1 ≤ 32 ∧ 32 ≤ SIZE_MAX ∧
    ∀ G, ∃ r, Generation.Run insertionStdSort UIntIndividual.individual
      (scriptedEngine (fun _ => [])) 32 3 G
      (sampleState [1, 7, 3] [16, 1, 4, 9, 0, 31]) = some r :=
  ⟨⟨by decide, by decide⟩, fun _ => rfl, scriptedEngine_inRange _, by decide, by decide,
    by decide, by decide,
    (C19_no_out_of_range_access insertionStdSort UIntIndividual.individual
      (scriptedEngine (fun _ => [])) 32 3 (sampleState [1, 7, 3] [16, 1, 4, 9, 0, 31])
      ⟨by decide, by decide⟩ (fun _ => rfl) (scriptedEngine_inRange _) (by decide)
      (by decide) (by decide) (by decide)).2.2.2.2.2.2.1⟩

/-! ## One bit per generation -/

theorem hamming_self : ∀ g : List Bool, hamming g g = 0 := by
  intro g
  induction g with
  | nil => rfl
  | cons a g ih => simp [hamming, ih]

theorem hamming_set_le : ∀ (g g0 : List Bool) (j : Nat) (b : Bool),
    hamming (g.set j b) g0 ≤ hamming g g0 + 1 := by
  intro g
  induction g with
  | nil => intro g0 j b; simp [hamming]
  | cons a g ih =>
    intro g0 j b
    cases g0 with
    | nil => simp [hamming]
    | cons b0 g0 =>
      cases j with
      | zero =>
        simp only [List.set_cons_zero, hamming]
        split <;> split <;> omega
      | succ j =>
        simp only [List.set_cons_succ, hamming]
        have := ih g0 j b
        omega

theorem totalHamming_perm {T TIndividual : Type} (I : Individual T TIndividual)
    (g0 : List Bool) {l1 l2 : List TIndividual} (h : l1.Perm l2) :
    totalHamming I g0 l1 = totalHamming I g0 l2 := by
  induction h with
  | nil => rfl
  | cons x _ ih => simp [totalHamming, ih]
  | swap x y l => simp only [totalHamming]; omega
  | trans _ _ ih1 ih2 => rw [ih1, ih2]

theorem totalHamming_set_le {T TIndividual : Type} (I : Individual T TIndividual)
    (g0 : List Bool) :
    ∀ (population : List TIndividual) (i : Nat) (x y : TIndividual),
      population[i]? = some x → hamming (I.getGenes y) g0 ≤ hamming (I.getGenes x) g0 + 1 →
      totalHamming I g0 (population.set i y) ≤ totalHamming I g0 population + 1 := by
  intro population
  induction population with
  | nil => intro i x y h; simp at h
  | cons a rest ih =>
    intro i x y h hy
    cases i with
    | zero =>
      have hax : a = x := by simpa using h
      subst hax
      simp only [List.set_cons_zero, totalHamming]
      omega
    | succ i =>
      have h1 : rest[i]? = some x := by simpa using h
      have := ih i x y h1 hy
      simp only [List.set_cons_succ, totalHamming]
      omega

theorem totalHamming_mem_le {T TIndividual : Type} (I : Individual T TIndividual)
    (g0 : List Bool) :
    ∀ (population : List TIndividual) (x : TIndividual), x ∈ population →
      hamming (I.getGenes x) g0 ≤ totalHamming I g0 population := by
  intro population
  induction population with
  | nil => intro x hx; cases hx
  | cons a rest ih =>
    intro x hx
    rcases List.mem_cons.mp hx with h | h
    · rw [h]; simp only [totalHamming]; omega
    · have := ih x h
      simp only [totalHamming]; omega

theorem totalHamming_all_equal {T TIndividual : Type} (I : Individual T TIndividual)
    (g0 : List Bool) :
    ∀ population : List TIndividual, (∀ x ∈ population, I.getGenes x = g0) →
      totalHamming I g0 population = 0 := by
  intro population
  induction population with
  | nil => intro _; rfl
  | cons a rest ih =>
    intro h
    simp only [totalHamming]
    rw [h a (List.mem_cons_self _ _), hamming_self,
      ih (fun x hx => h x (List.mem_cons_of_mem _ hx))]

theorem Mutation_form {T TIndividual σ : Type} (I : Individual T TIndividual)
    (E : TRandomEngine σ) (N P : Nat) (ga ga1 : GeneticAlgorithm TIndividual σ)
    (h : Mutation I E N P ga = some ga1) :
    ∃ (i j : Nat) (x : TIndividual) (bit : Bool),
      ga.population[i]? = some x ∧ (I.getGenes x)[j]? = some bit ∧
      ga1.population = ga.population.set i (I.construct ((I.getGenes x).set j (!bit))) := by
  unfold Mutation at h
  simp only at h
  cases hx : ga.population[(E.uniform 0 (subOne P) ga.randomEngine).1]? with
  | none => simp [hx] at h
  | some x =>
    simp only [hx] at h
    cases hb : (I.getGenes x)[(E.uniform 0 (subOne N)
        (E.uniform 0 (subOne P) ga.randomEngine).2).1]? with
    | none => simp [hb] at h
    | some bit =>
      simp only [hb] at h
      refine ⟨_, _, x, bit, hx, hb, ?_⟩
      obtain ⟨li, _⟩ := List.getElem?_eq_some_iff.mp hx
      obtain ⟨lj, _⟩ := List.getElem?_eq_some_iff.mp hb
      have a1 := assignAt_eq_some (I.getGenes x)
        (E.uniform 0 (subOne N) (E.uniform 0 (subOne P) ga.randomEngine).2).1 (!bit) lj
      have a2 := assignAt_eq_some ga.population (E.uniform 0 (subOne P) ga.randomEngine).1
        (I.construct ((I.getGenes x).set
          (E.uniform 0 (subOne N) (E.uniform 0 (subOne P) ga.randomEngine).2).1 (!bit))) li
      simp only [a1, a2, Option.some.injEq] at h
      rw [← h]

theorem specGeneration_totalHamming {T TIndividual σ : Type} (S : StdSort)
    (I : Individual T TIndividual) (E : TRandomEngine σ) (N P : Nat) (hs : I.StoresGenes)
    (g0 : List Bool) (ga ga3 : GeneticAlgorithm TIndividual σ)
    (h : specGeneration S I E N P ga = some ga3) :
    totalHamming I g0 ga3.population ≤ totalHamming I g0 ga.population + 1 := by
  obtain ⟨ga2, hc, hm⟩ := specGeneration_parts S I E N P ga ga3 h
  have hsel : totalHamming I g0 (Selection S I ga).population =
      totalHamming I g0 ga.population :=
    totalHamming_perm I g0
      (S.perm (fitnessGreater I) ga.population (fitnessGreater_strictWeakOrdering I))
  have hcross := (Crossover_population I E N P _ ga2 hc).1
  obtain ⟨i, j, x, bit, hx, _, hpop⟩ := Mutation_form I E N P ga2 ga3 hm
  rw [hpop, ← hsel, ← hcross]
  apply totalHamming_set_le I g0 ga2.population i x _ hx
  rw [hs]
  exact hamming_set_le _ g0 j _

theorem specGenerations_totalHamming {T TIndividual σ : Type} (S : StdSort)
    (I : Individual T TIndividual) (E : TRandomEngine σ) (N P : Nat) (hs : I.StoresGenes)
    (g0 : List Bool) :
    ∀ (G : Nat) (ga gaG : GeneticAlgorithm TIndividual σ),
      specGenerations S I E N P G ga = some gaG →
      totalHamming I g0 gaG.population ≤ totalHamming I g0 ga.population + G := by
  intro G
  induction G with
  | zero =>
    intro ga gaG h
    simp only [specGenerations, Option.some.injEq] at h
    rw [← h]; omega
  | succ G ih =>
    intro ga gaG h
    rw [specGenerations] at h
    cases hgen : specGeneration S I E N P ga with
    | none => rw [hgen] at h; cases h
    | some ga3 =>
      rw [hgen] at h
      have h1 := specGeneration_totalHamming S I E N P hs g0 ga ga3 hgen
      have h2 := ih ga3 gaG h
      omega

theorem hamming_zeros : ∀ (g : List Bool) (n : Nat), g.length ≤ n →
    hamming g (List.replicate n false) = g.count true := by
  intro g
  induction g with
  | nil => intro n _; cases n <;> rfl
  | cons a g ih =>
    intro n hn
    cases n with
    | zero => simp at hn
    | succ n =>
      have hg : g.length ≤ n := by simpa using hn
      rw [List.replicate_succ, hamming, ih n hg]
      cases a <;> simp [Nat.add_comm]

theorem to_ulong_lt : ∀ g : List Bool, UIntIndividual.to_ulong g < 2 ^ g.length := by
  intro g
  induction g with
  | nil => simp [UIntIndividual.to_ulong]
  | cons b g ih =>
    have hb : b.toNat ≤ 1 := by cases b <;> simp
    simp only [UIntIndividual.to_ulong, List.length_cons, Nat.pow_succ]
    omega

theorem to_ulong_inj : ∀ g1 g2 : List Bool, g1.length = g2.length →
    UIntIndividual.to_ulong g1 = UIntIndividual.to_ulong g2 → g1 = g2 := by
  intro g1
  induction g1 with
  | nil =>
    intro g2 hl _
    cases g2 with
    | nil => rfl
    | cons b g2 => simp at hl
  | cons a g1 ih =>
    intro g2 hl h
    cases g2 with
    | nil => simp at hl
    | cons b g2 =>
      simp only [UIntIndividual.to_ulong] at h
      have hl1 : g1.length = g2.length := by simpa using hl
      have hab : a = b ∧ UIntIndividual.to_ulong g1 = UIntIndividual.to_ulong g2 := by
        cases a <;> cases b <;> simp at h ⊢ <;> omega
      rw [hab.1, ih g2 hl1 hab.2]

theorem encode_decode (g : List Bool) (hg : g.length = 32) :
    UIntIndividual.encode (UIntIndividual.decode g) = g := by
  have hlt : UIntIndividual.to_ulong g < 2 ^ 32 := by
    have := to_ulong_lt g
    rwa [hg] at this
  unfold UIntIndividual.encode UIntIndividual.decode
  apply to_ulong_inj
  · rw [List.length_map, List.length_range, hg]
  · rw [UIntIndividual.to_ulong_testBits 32, Nat.mod_mod, Nat.mod_eq_of_lt hlt]

/-- C20: when every individual of the initial population has the genes `g0` and the
constructor stores its genes, after `G` generations the number of bit positions in which
the individuals differ from `g0`, summed over the population, is at most `G`, and the
final Selection keeps it so. Consequently, for the sample `UIntIndividual` started from an
all-zero population, the value the generation-bound `Run(G)` returns has at most `G`
bits set, and for `G < 32` it is not 4294967295. -/
theorem C20_one_bit_per_generation {T TIndividual σ : Type} (S : StdSort)
    (I : Individual T TIndividual) (E : TRandomEngine σ) (N P G : Nat) (g0 : List Bool) :
    (∀ ga gaG : GeneticAlgorithm TIndividual σ, I.StoresGenes →
      (∀ x ∈ ga.population, I.getGenes x = g0) →
      specGenerations S I E N P G ga = some gaG →
      totalHamming I g0 gaG.population ≤ G ∧
        totalHamming I g0 (Selection S I gaG).population ≤ G) ∧
    (∀ (ga gaF : GeneticAlgorithm UIntIndividual σ) (v : Nat), ga.population.length = P →
      (∀ x ∈ ga.population, UIntIndividual.individual.getGenes x = List.replicate 32 false) →
      Generation.Run S UIntIndividual.individual E 32 P G ga = some (v, gaF) →
      (UIntIndividual.encode v).count true ≤ G ∧ (G < 32 → v ≠ 4294967295)) := by
  constructor
  · intro ga gaG hs hall hspec
    have h := specGenerations_totalHamming S I E N P hs g0 G ga gaG hspec
    rw [totalHamming_all_equal I g0 ga.population hall] at h
    have hsel : totalHamming I g0 (Selection S I gaG).population =
        totalHamming I g0 gaG.population :=
      totalHamming_perm I g0
        (S.perm (fitnessGreater I) gaG.population (fitnessGreater_strictWeakOrdering I))
    exact ⟨by omega, by omega⟩
  · intro ga gaF v hlen hall hrun
    have hs : UIntIndividual.individual.StoresGenes := fun _ => rfl
    have hw : WellFormed UIntIndividual.individual 32 P ga :=
      ⟨hlen, fun x hx => by rw [hall x hx]; simp⟩
    unfold Generation.Run at hrun
    rw [Generation_runLoop_eq_specGenerations S _ E 32 P G G 0 ga (by omega)] at hrun
    cases hspec : specGenerations S UIntIndividual.individual E 32 P G ga with
    | none => simp [hspec] at hrun
    | some gaG =>
      simp only [hspec, returnTop] at hrun
      cases htop : (Selection S UIntIndividual.individual gaG).population[0]? with
      | none => simp [htop] at hrun
      | some top =>
        simp only [htop, Option.some.injEq, Prod.mk.injEq] at hrun
        obtain ⟨hv, _⟩ := hrun
        have hwG := specGenerations_preserves_wellFormed S UIntIndividual.individual E 32 P hs
          G ga gaG hw hspec
        have hwS := Selection_wellFormed S UIntIndividual.individual 32 P gaG hwG
        have hmem := List.getElem?_mem htop
        have hlen32 : (UIntIndividual.individual.getGenes top).length = 32 := hwS.2 top hmem
        have htot := specGenerations_totalHamming S UIntIndividual.individual E 32 P hs
          (List.replicate 32 false) G ga gaG hspec
        rw [totalHamming_all_equal _ _ ga.population hall] at htot
        have hsel : totalHamming UIntIndividual.individual (List.replicate 32 false)
            (Selection S UIntIndividual.individual gaG).population =
            totalHamming UIntIndividual.individual (List.replicate 32 false) gaG.population :=
          totalHamming_perm _ _ (S.perm (fitnessGreater UIntIndividual.individual)
            gaG.population (fitnessGreater_strictWeakOrdering _))
        have hone := totalHamming_mem_le UIntIndividual.individual (List.replicate 32 false)
          _ top hmem
        rw [hamming_zeros _ 32 (by omega)] at hone
        have henc : UIntIndividual.encode v = UIntIndividual.individual.getGenes top := by
          rw [← hv]
          exact encode_decode _ hlen32
        have hcount : (UIntIndividual.encode v).count true ≤ G := by
          rw [henc]; omega
        refine ⟨hcount, ?_⟩
        intro hG hv32
        rw [hv32] at hcount
        have h32 : (UIntIndividual.encode 4294967295).count true = 32 := by decide
        omega

/-- Witness of C20: two generations of the sample engine from three all-zero individuals
return 2147483664, a value with two bits set. -/
theorem C20_one_bit_per_generation_witness :
    (sampleState [0, 0, 0] [16, 1, 4, 9, 0, 31]).population.length = 3 ∧
    (∀ x ∈ (sampleState [0, 0, 0] [16, 1, 4, 9, 0, 31]).population,
      UIntIndividual.individual.getGenes x = List.replicate 32 false) ∧
    Generation.Run insertionStdSort UIntIndividual.individual (scriptedEngine (fun _ => []))
        32 3 2 (sampleState [0, 0, 0] [16, 1, 4, 9, 0, 31]) =
      some (2147483664, sampleState [2147483664, 0, 0] []) ∧
    (UIntIndividual.encode 2147483664).count true ≤ 2 ∧ (2 < 32 → 2147483664 ≠ 4294967295) :=
  ⟨by decide, by decide, by rfl,
    (C20_one_bit_per_generation insertionStdSort UIntIndividual.individual
      (scriptedEngine (fun _ => [])) 32 3 2 (List.replicate 32 false)).2
      (sampleState [0, 0, 0] [16, 1, 4, 9, 0, 31]) (sampleState [2147483664, 0, 0] [])
      2147483664 (by decide) (by decide) (by rfl)⟩

end HsBa.GA
